import Mathlib

/-!
Verification development for the Verdandi/Seldon numeric substrate:
the SQMR iterative solver (`QmrSym.cxx`), the packed-hermitian and
triangular matrix classes (`Matrix_HermPacked.cxx`,
`Matrix_Triangular.cxx`) and the EKF driver entry point
(`example/clamped_bar/test_ekf.cpp`).

Scalars are modelled as rationals; C++ vectors (`Vector1`) as `List ℚ`.
The real square root, the preconditioner and the matrix-vector product
are passed as explicit function parameters, exactly as the C++ code
accesses them only through calls.
-/

namespace Verdandi

/-! ### Vectors (Seldon `Vector1` operations used by QmrSym) -/

/-- The vector type used by the solver embedding. -/
abbrev Vec := List ℚ

/-- `DotProd(u, v)`: unconjugated dot product, as used by SQMR. -/
def dotProd (u v : Vec) : ℚ := (List.zipWith (· * ·) u v).sum

/-- `Mlt(a, u)`: scales a vector in place; modelled functionally. -/
def vecScale (a : ℚ) (u : Vec) : Vec := u.map (fun c => a * c)

/-- `Add(a, x, y)`: computes `y := a*x + y` componentwise. -/
def vecAxpy (a : ℚ) (x y : Vec) : Vec :=
  List.zipWith (fun xc yc => a * xc + yc) x y

/-- `x.Fill(c)`: fills a vector with the constant `c`. -/
def vecFill (u : Vec) (c : ℚ) : Vec := u.map (fun _ => c)

/-! ### SQMR solver (`computation/solver/iterative/QmrSym.cxx`) -/

/-- Parameters of a `QmrSym` call: the matrix `A` (dimension `N` and its
matrix-vector product), the preconditioner `M.Solve`, the external square
root, and the iteration parameters.  The tolerance / maximum iteration
count / initial-guess flag come from the `Iteration` object, which is not
part of the sampled source and is modelled from the spec. -/
structure QmrParams where
  N : Int
  mulA : Vec → Vec
  precond : Vec → Vec
  sqrtQ : ℚ → ℚ
  tol : ℚ
  max_iter : ℕ
  initGuessNull : Bool
  b : Vec

/-- Running state of the SQMR iteration: the vectors
`x, r, v, y, p, p_tld, d, s` and scalars `theta, gamma, eta, ep, rho` of
`QmrSym.cxx`, plus the iteration counter and error code held by the
`Iteration` object. -/
structure QmrState where
  x : Vec
  r : Vec
  v : Vec
  y : Vec
  p : Vec
  p_tld : Vec
  d : Vec
  s : Vec
  theta : ℚ
  gamma : ℚ
  eta : ℚ
  ep : ℚ
  rho : ℚ
  nb : ℕ
  err : Int
  deriving DecidableEq

/-- Initialization of `QmrSym` (lines 65-88 of `QmrSym.cxx`):
`theta = 0, gamma = 1, eta = -1, ep = 0`; `r = b - A·x` (or `r = b` and
`x` zero-filled when the initial guess is defined to be zero); `v = r`;
`y = M⁻¹·v`; `rho = Norm2(y)`; iteration number set to `0`.  The work
vectors `p, p_tld, d, s` are copy-constructed from `b`. -/
def qmrInit (P : QmrParams) (x0 : Vec) : QmrState :=
  let x := if P.initGuessNull then vecFill x0 0 else x0
  let r := if P.initGuessNull then P.b else vecAxpy (-1) (P.mulA x0) P.b
  let v := r
  let y := P.precond v
  { x := x, r := r, v := v, y := y,
    p := P.b, p_tld := P.b, d := P.b, s := P.b,
    theta := 0, gamma := 1, eta := -1, ep := 0,
    rho := P.sqrtQ (dotProd y y), nb := 0, err := 0 }

/-- `v / rho`, the normalized Lanczos vector (line 101). -/
def qmrVN (st : QmrState) : Vec := vecScale (1 / st.rho) st.v

/-- `y / rho`, the normalized preconditioned vector (line 102). -/
def qmrYN (st : QmrState) : Vec := vecScale (1 / st.rho) st.y

/-- `delta = DotProd(v, y)` on the normalized vectors (line 104). -/
def qmrDelta (st : QmrState) : ℚ := dotProd (qmrVN st) (qmrYN st)

/-- Search-direction update (lines 111-118): `p = y` on the first
iteration, otherwise `p = y - (rho*delta/ep) * p`. -/
def qmrPnew (st : QmrState) : Vec :=
  if st.nb = 0 then qmrYN st
  else vecAxpy 1 (qmrYN st) (vecScale (-(st.rho * qmrDelta st) / st.ep) st.p)

/-- `p_tld = A*p` (line 121). -/
def qmrPtld (P : QmrParams) (st : QmrState) : Vec := P.mulA (qmrPnew st)

/-- `ep = DotProd(p, p_tld)` (line 123). -/
def qmrEp (P : QmrParams) (st : QmrState) : ℚ :=
  dotProd (qmrPnew st) (qmrPtld P st)

/-- `beta = ep / delta` (line 130). -/
def qmrBeta (P : QmrParams) (st : QmrState) : ℚ := qmrEp P st / qmrDelta st

/-- `v = -beta*v + p_tld` (line 138), on the normalized `v`. -/
def qmrVnext (P : QmrParams) (st : QmrState) : Vec :=
  vecAxpy (-qmrBeta P st) (qmrVN st) (qmrPtld P st)

/-- `M.Solve(A, v, y)` on the new `v` (line 139). -/
def qmrYnext (P : QmrParams) (st : QmrState) : Vec := P.precond (qmrVnext P st)

/-- `rho = Norm2(y)` on the new `y` (line 142). -/
def qmrRho (P : QmrParams) (st : QmrState) : ℚ :=
  P.sqrtQ (dotProd (qmrYnext P st) (qmrYnext P st))

/-- `theta = rho / (gamma_1 * beta)` (line 147), `gamma_1` the previous
`gamma`. -/
def qmrTheta (P : QmrParams) (st : QmrState) : ℚ :=
  qmrRho P st / (st.gamma * qmrBeta P st)

/-- `gamma = 1 / sqrt(1 + theta*theta)` (line 148). -/
def qmrGamma (P : QmrParams) (st : QmrState) : ℚ :=
  1 / P.sqrtQ (1 + qmrTheta P st * qmrTheta P st)

/-- `eta = -eta * rho_1 * gamma^2 / (beta * gamma_1^2)` (line 156),
where `rho_1, gamma_1` are the previous `rho, gamma`. -/
def qmrEta (P : QmrParams) (st : QmrState) : ℚ :=
  -st.eta * st.rho * qmrGamma P st * qmrGamma P st /
    (qmrBeta P st * st.gamma * st.gamma)

/-- Solution-direction update for `d` (lines 158-172): on the first
iteration `d = eta * p`; afterwards `d = (theta_1^2 * gamma^2) * d + eta * p`
with `theta_1` the PREVIOUS `theta` and `gamma` the new one. -/
def qmrDnew (P : QmrParams) (st : QmrState) : Vec :=
  if st.nb = 0 then vecScale (qmrEta P st) (qmrPnew st)
  else vecAxpy (qmrEta P st) (qmrPnew st)
    (vecScale (st.theta * st.theta * qmrGamma P st * qmrGamma P st) st.d)

/-- Solution-direction update for `s` (lines 158-172), same recurrence as
`d` with `p_tld` in place of `p`. -/
def qmrSnew (P : QmrParams) (st : QmrState) : Vec :=
  if st.nb = 0 then vecScale (qmrEta P st) (qmrPtld P st)
  else vecAxpy (qmrEta P st) (qmrPtld P st)
    (vecScale (st.theta * st.theta * qmrGamma P st * qmrGamma P st) st.s)

/-- Result of one pass through the `QmrSym` loop body: either a
breakdown (`iter.Fail(code, ...)` followed by `break`) or the next
state after `++iter`. -/
inductive QmrStep where
  | broke (st : QmrState)
  | next (st : QmrState)
  deriving DecidableEq

/-- State component of a step result. -/
def QmrStep.state : QmrStep → QmrState
  | .broke st => st
  | .next st => st

/-- Whether a step result continued to the next iteration. -/
def QmrStep.isNext : QmrStep → Bool
  | .broke _ => false
  | .next _ => true

/-- One iteration of the `QmrSym` loop (lines 90-177).  The five
breakdown checks `rho == 0`, `delta == 0`, `ep == 0`, `beta == 0`,
`gamma == 0` call `iter.Fail` with codes 1, 3, 4, 5, 6 respectively and
`break` out of the loop; in the broken state the mutations already
performed before the `break` are retained. -/
def qmrIter (P : QmrParams) (st : QmrState) : QmrStep :=
  if st.rho = 0 then .broke { st with err := 1 }
  else if qmrDelta st = 0 then
    .broke { st with v := qmrVN st, y := qmrYN st, err := 3 }
  else if qmrEp P st = 0 then
    .broke { st with v := qmrVN st, y := qmrYN st, p := qmrPnew st,
                     p_tld := qmrPtld P st, ep := qmrEp P st, err := 4 }
  else if qmrBeta P st = 0 then
    .broke { st with v := qmrVN st, y := qmrYN st, p := qmrPnew st,
                     p_tld := qmrPtld P st, ep := qmrEp P st, err := 5 }
  else if qmrGamma P st = 0 then
    .broke { st with v := qmrVnext P st, y := qmrYnext P st,
                     p := qmrPnew st, p_tld := qmrPtld P st,
                     ep := qmrEp P st, rho := qmrRho P st,
                     theta := qmrTheta P st, gamma := qmrGamma P st,
                     err := 6 }
  else
    .next { x := vecAxpy 1 (qmrDnew P st) st.x,
            r := vecAxpy (-1) (qmrSnew P st) st.r,
            v := qmrVnext P st, y := qmrYnext P st,
            p := qmrPnew st, p_tld := qmrPtld P st,
            d := qmrDnew P st, s := qmrSnew P st,
            theta := qmrTheta P st, gamma := qmrGamma P st,
            eta := qmrEta P st, ep := qmrEp P st, rho := qmrRho P st,
            nb := st.nb + 1, err := st.err }

/-- Norm of the current residual, `Norm2(r)`. -/
def qmrResNorm (P : QmrParams) (st : QmrState) : ℚ :=
  P.sqrtQ (dotProd st.r st.r)

/-- Modelled from the spec: `iter.Finished(r)` of the `Iteration` class
(not in the sampled source) — true when the residual norm is below the
tolerance or the iteration cap is reached. -/
def qmrFinished (P : QmrParams) (st : QmrState) : Bool :=
  decide (qmrResNorm P st ≤ P.tol) || decide (P.max_iter ≤ st.nb)

/-- Modelled from the spec: `iter.ErrorCode()` of the `Iteration` class
(not in the sampled source) — the code recorded by `iter.Fail` when one
was set, `0` for a converged run, and a distinct iteration-limit code
(`-2`) when the cap was reached without convergence. -/
def qmrErrorCode (P : QmrParams) (st : QmrState) : Int :=
  if st.err ≠ 0 then st.err
  else if qmrResNorm P st ≤ P.tol then 0
  else if P.max_iter ≤ st.nb then -2
  else 0

/-- The `while (!iter.Finished(r))` loop of `QmrSym`, fuel-indexed. -/
def qmrLoop (P : QmrParams) : ℕ → QmrState → QmrState
  | 0, st => st
  | fuel + 1, st =>
    if qmrFinished P st then st
    else
      match qmrIter P st with
      | .broke st' => st'
      | .next st' => qmrLoop P fuel st'

/-- `QmrSym(A, x, b, M, iter)`: returns the status code and the final
solution vector.  A matrix with non-positive dimension returns `0`
immediately (lines 52-54) without touching `x`. -/
def QmrSym (P : QmrParams) (x0 : Vec) : Int × Vec :=
  if P.N ≤ 0 then (0, x0)
  else
    let stf := qmrLoop P (P.max_iter + 1) (qmrInit P x0)
    (qmrErrorCode P stf, stf.x)

/-! ### Matrix storage layer

Buffers are `List ℚ`; a null data pointer is `Option.none`.  The
allocator is an explicit parameter `ℕ → Option (List ℚ)` (requested
element count to buffer, `none` = allocation failure), matching the
`Allocator::allocate / reallocate` calls of the source.  Deallocations
of the data buffer are logged as a list of freed buffers, so that
"this operation frees / does not free the buffer" is observable. -/

/-- Error raised by the storage layer (`NoMemory`, i.e. `OutOfMemory`). -/
inductive SError where
  | outOfMemory
  deriving DecidableEq

/-- Allocator abstraction: element count to optional buffer. -/
abbrev Alloc := ℕ → Option (List ℚ)

/-- Reads a buffer element, `data[p]` (out of range gives a junk `0`;
all verified accesses are in range). -/
def readAt (l : List ℚ) (p : ℕ) : ℚ := (l[p]?).getD 0

/-! #### `Matrix_HermPacked` (row-packed hermitian, `Matrix_HermPacked.cxx`) -/

/-- A packed hermitian matrix: dimensions `m_`, `n_` and the packed data
buffer `data_` (`none` = null pointer). -/
structure HPMat where
  m : ℕ
  n : ℕ
  data : Option (List ℚ)
  deriving DecidableEq

/-- `GetDataSize()` of the packed layout: `m(m+1)/2` stored scalars.
Modelled from the spec (the accessor lives in the `.hxx` header, not in
the sampled source), corroborated by `Clear` deallocating
`m_*(m_+1)/2` elements (line 100) and `Resize` copying that count. -/
def HPMat.getDataSize (A : HPMat) : ℕ := A.m * (A.m + 1) / 2

/-- The constructor `Matrix_HermPacked(i, j)` (lines 35-65): allocates
`i*(i+1)/2` elements, sets both dimensions to `i`; on allocation
failure leaves the empty `0x0` matrix with a null pointer (the
constructor returns without throwing). -/
def HPMat.construct (alloc : Alloc) (i _j : ℕ) : HPMat :=
  match alloc (i * (i + 1) / 2) with
  | some buf => { m := i, n := i, data := some buf }
  | none => { m := 0, n := 0, data := none }

/-- `Clear()` (lines 88-116): deallocates the data buffer when non-null
and resets to `0x0`.  The second component logs the freed buffers. -/
def HPMat.clear (A : HPMat) : HPMat × List (List ℚ) :=
  match A.data with
  | some b => ({ m := 0, n := 0, data := none }, [b])
  | none => ({ m := 0, n := 0, data := none }, [])

/-- `Reallocate(i, j)` (lines 131-170): a no-op when `i` equals the
current row count; otherwise reallocates to `i*(i+1)/2` elements with
both dimensions `i`; on reallocation failure the matrix is left empty
`0x0` with a null pointer and `NoMemory` is thrown. -/
def HPMat.reallocate (alloc : Alloc) (A : HPMat) (i _j : ℕ) :
    HPMat × Option SError :=
  if i = A.m then (A, none)
  else
    match alloc (i * (i + 1) / 2) with
    | some buf => ({ m := i, n := i, data := some buf }, none)
    | none => ({ m := 0, n := 0, data := none }, some .outOfMemory)

/-- `SetData(i, j, data)` (lines 189-201): clears the matrix (freeing
the old buffer, logged), then installs the caller's buffer with both
dimensions set to `i`. -/
def HPMat.setData (A : HPMat) (i _j : ℕ) (buf : List ℚ) :
    HPMat × List (List ℚ) :=
  ({ m := i, n := i, data := some buf }, (A.clear).2)

/-- `Nullify()` (lines 209-215): resets to `0x0` with a null data
pointer without releasing the buffer (nothing is freed). -/
def HPMat.nullify (_A : HPMat) : HPMat := { m := 0, n := 0, data := none }

/-- Offset of the start of packed row `k` in a row-packed matrix of
dimension `d`: `sum over t < k of (d - t)`. -/
def rowStart (d : ℕ) : ℕ → ℕ
  | 0 => 0
  | k + 1 => rowStart d k + (d - k)

/-- Modelled from the spec: element access `Val(k, l)` of the row-packed
hermitian layout for a stored (upper-triangle, `k ≤ l`) element — the
packed offset of `(k, l)` is row `k`'s offset plus `l - k`.  This is the
mapping `Matrix<RowHermPacked>::Resize` re-derives with its `n`/`nold`
accumulators (lines 778-788). -/
def HPMat.val (A : HPMat) (k l : ℕ) : ℚ :=
  readAt (A.data.getD []) (rowStart A.m k + (l - k))

/-- The copy loop of `Matrix<RowHermPacked>::Resize` (lines 778-788):
for `k < imin` and `k ≤ l < imin`, `data[n + l - k] = xold(nold + l - k)`,
with `n += i - k` and `nold += iold - k` after each row. -/
def hpCopyLoop (imin i iold : ℕ) (xold d : List ℚ) : List ℚ :=
  ((List.range imin).foldl
    (fun (acc : List ℚ × ℕ × ℕ) k =>
      ((List.range' k (imin - k)).foldl
        (fun dl l => dl.set (acc.2.1 + (l - k)) (readAt xold (acc.2.2 + (l - k))))
        acc.1,
       acc.2.1 + (i - k), acc.2.2 + (iold - k)))
    (d, 0, 0)).1

/-- `Matrix<RowHermPacked>::Resize(i, j)` (lines 764-789): saves the old
buffer, calls `Reallocate`, then copies the overlapping stored triangle
re-deriving each packed row offset for the new dimension. -/
def HPMat.resize (alloc : Alloc) (A : HPMat) (i j : ℕ) :
    HPMat × Option SError :=
  let iold := A.m
  let xold := A.data.getD []
  let (B, errB) := A.reallocate alloc i j
  match errB with
  | some e => (B, some e)
  | none =>
    ({ B with data := some (hpCopyLoop (min iold i) i iold xold (B.data.getD [])) },
     none)

/-! #### `Matrix_Triangular` (full `n²` buffer, `Matrix_Triangular.cxx`) -/

/-- A triangular matrix: dimensions, the row-pointer array `me_`
(modelled as the list of row offsets into the data buffer; `none` =
null) and the `m*n` data buffer. -/
structure TriMat where
  m : ℕ
  n : ℕ
  me : Option (List ℕ)
  data : Option (List ℚ)
  deriving DecidableEq

/-- The row-pointer array set up by the constructor / `Reallocate` /
`SetData`: `me_[k] = data_ + k * i`. -/
def triMe (i : ℕ) : List ℕ := (List.range i).map (fun k => k * i)

/-- `GetDataSize()` of the triangular layout: the full `m*n` buffer.
Modelled from the spec (`i²` stored scalars), corroborated by `Clear`
deallocating `m_*n_` elements (line 144) and `Write` emitting
`m_*n_` scalars (line 627). -/
def TriMat.getDataSize (A : TriMat) : ℕ := A.m * A.n

/-- The empty `0x0` triangular matrix with null pointers. -/
def TriMat.empty : TriMat := { m := 0, n := 0, me := none, data := none }

/-- The constructor `Matrix_Triangular(i, j)` (lines 35-110): allocates
the `me_` pointer array (abstracted to a success flag `allocP`) and the
`i*i` data buffer; either allocation failing leaves the empty `0x0`
state with null pointers, throwing `NoMemory` only when `i != 0`. -/
def TriMat.construct (allocP : ℕ → Option Unit) (alloc : Alloc)
    (i _j : ℕ) : TriMat × Option SError :=
  match allocP i with
  | none =>
    if i = 0 then
      match alloc (i * i) with
      | some buf => ({ m := 0, n := 0, me := none, data := some buf }, none)
      | none => (TriMat.empty, none)
    else (TriMat.empty, some .outOfMemory)
  | some _ =>
    match alloc (i * i) with
    | some buf =>
      ({ m := i, n := i, me := some (triMe i), data := some buf }, none)
    | none =>
      (TriMat.empty, if i = 0 then none else some .outOfMemory)

/-- `Clear()` (lines 134-179): frees the data buffer (logged) and the
`me_` array, leaving the empty `0x0` matrix. -/
def TriMat.clear (A : TriMat) : TriMat × List (List ℚ) :=
  match A.data with
  | some b => (TriMat.empty, [b])
  | none => (TriMat.empty, [])

/-- `Reallocate(i, j)` (lines 194-280): a no-op when `i` equals the
current row count; otherwise reallocates `me_` and the `i*i` data
buffer and rebuilds the row pointers; on failure of either allocation
the matrix is left empty `0x0` with null pointers, throwing `NoMemory`
only when `i != 0`. -/
def TriMat.reallocate (allocP : ℕ → Option Unit) (alloc : Alloc)
    (A : TriMat) (i _j : ℕ) : TriMat × Option SError :=
  if i = A.m then (A, none)
  else
    match allocP i with
    | none =>
      if i = 0 then
        match alloc (i * i) with
        | some buf => ({ m := 0, n := 0, me := none, data := some buf }, none)
        | none => (TriMat.empty, none)
      else (TriMat.empty, some .outOfMemory)
    | some _ =>
      match alloc (i * i) with
      | some buf =>
        ({ m := i, n := i, me := some (triMe i), data := some buf }, none)
      | none =>
        (TriMat.empty, if i = 0 then none else some .outOfMemory)

/-- `SetData(i, j, data)` (lines 299-343): clears the matrix (freeing
the old buffer, logged), sets both dimensions to `i`, allocates a fresh
`me_` array (failure leaves the empty state, no throw) and installs the
caller's buffer. -/
def TriMat.setData (allocP : ℕ → Option Unit) (A : TriMat) (i _j : ℕ)
    (buf : List ℚ) : TriMat × List (List ℚ) :=
  let freed := (A.clear).2
  match allocP i with
  | none => (TriMat.empty, freed)
  | some _ =>
    ({ m := i, n := i, me := some (triMe i), data := some buf }, freed)

/-- `Nullify()` (lines 352-380): resets to `0x0`, frees only the `me_`
array, and nulls the data pointer without releasing the buffer. -/
def TriMat.nullify (_A : TriMat) : TriMat := TriMat.empty

/-- Modelled from the spec: stored-element access of the triangular
layout — row-major position `k * n + l` of the `n²` buffer (the spec's
"`n` row pointers into an `n²` contiguous buffer, row-major"). -/
def TriMat.val (A : TriMat) (k l : ℕ) : ℚ :=
  readAt (A.data.getD []) (k * A.n + l)

/-- The copy loop of `Matrix_Triangular::Resize` (lines 408-411):
for `k, l < imin`, `data[k*i + l] = xold(k*iold + l)`. -/
def triCopyLoop (imin i iold : ℕ) (xold d : List ℚ) : List ℚ :=
  (List.range imin).foldl
    (fun dk k =>
      (List.range imin).foldl
        (fun dl l => dl.set (k * i + l) (readAt xold (k * iold + l)))
        dk)
    d

/-- `Matrix_Triangular::Resize(i, j)` (lines 391-413): when `i` differs
from the current row count, saves the old buffer, reallocates to `i*i`,
and copies the overlapping square re-deriving each row's offset
`k*i` in the new buffer. -/
def TriMat.resize (allocP : ℕ → Option Unit) (alloc : Alloc)
    (A : TriMat) (i _j : ℕ) : TriMat × Option SError :=
  if i = A.m then (A, none)
  else
    let iold := A.m
    let xold := A.data.getD []
    let (B, errB) := A.reallocate allocP alloc i i
    match errB with
    | some e => (B, some e)
    | none =>
      ({ B with data := some (triCopyLoop (min iold i) i iold xold (B.data.getD [])) },
       none)

/-! #### Binary serialization (`Write` / `Read`)

A binary stream is a token list: `i32` tokens for the two 4-byte
dimension integers and `scal` tokens for raw stored scalars, in stream
order.  The byte-level encoding itself is abstracted. -/

/-- One token of a binary stream. -/
inductive BinTok where
  | i32 (v : ℕ)
  | scal (q : ℚ)
  deriving DecidableEq

/-- Reads `count` raw scalars from a stream
(`FileStream.read(data_, count * sizeof(value_type))`); `none` models a
stream failure (not enough data). -/
def readScalars : ℕ → List BinTok → Option (List ℚ × List BinTok)
  | 0, s => some ([], s)
  | k + 1, .scal q :: s =>
    match readScalars k s with
    | some (qs, r) => some (q :: qs, r)
    | none => none
  | _ + 1, _ => none

/-- `Matrix_HermPacked::Write(ostream&)` (lines 415-444): the two
dimension integers followed by the `GetDataSize()` stored scalars in
storage order. -/
def HPMat.writeBin (A : HPMat) : List BinTok :=
  [.i32 A.m, .i32 A.n] ++ ((A.data.getD []).take A.getDataSize).map .scal

/-- `Matrix_HermPacked::Read(istream&)` (lines 552-581): reads the two
dimension integers, calls `Reallocate(new_m, new_n)`, then reads
`GetDataSize()` scalars into the buffer.  `none` models a thrown
`IOError`/`NoMemory`. -/
def HPMat.readBin (alloc : Alloc) (A : HPMat) (s : List BinTok) :
    Option (HPMat × List BinTok) :=
  match s with
  | .i32 nm :: .i32 nn :: rest =>
    match A.reallocate alloc nm nn with
    | (_B, some _) => none
    | (B, none) =>
      match readScalars B.getDataSize rest with
      | some (payload, rest') => some ({ B with data := some payload }, rest')
      | none => none
  | _ => none

/-- `Matrix_Triangular::Write(ostream&)` (lines 609-638): the two
dimension integers followed by the `m_*n_` buffer scalars. -/
def TriMat.writeBin (A : TriMat) : List BinTok :=
  [.i32 A.m, .i32 A.n] ++ ((A.data.getD []).take (A.m * A.n)).map .scal

/-- `Matrix_Triangular::Read(istream&)` (lines 746-775): reads the two
dimension integers, calls `Reallocate(new_m, new_n)`, then reads
`new_m*new_n` scalars into the buffer. -/
def TriMat.readBin (allocP : ℕ → Option Unit) (alloc : Alloc)
    (A : TriMat) (s : List BinTok) : Option (TriMat × List BinTok) :=
  match s with
  | .i32 nm :: .i32 nn :: rest =>
    match A.reallocate allocP alloc nm nn with
    | (_B, some _) => none
    | (B, none) =>
      match readScalars (nm * nn) rest with
      | some (payload, rest') => some ({ B with data := some payload }, rest')
      | none => none
  | _ => none

/-! #### Text serialization of `Matrix_Triangular`

A text stream is a list of lines, each line a list of scalars
(tab-separated in the file).  `Storage::UpLo()` is the upper/lower flag:
`true` for upper-triangular row storage. -/

/-- Modelled from the spec: full-grid element access `(*this)(i, j)` of
the triangular layout used by `WriteText` — the stored entry inside the
stored triangle and the zero-fill convention outside it. -/
def TriMat.access (up : Bool) (A : TriMat) (i j : ℕ) : ℚ :=
  if up then (if i ≤ j then A.val i j else 0)
  else (if j ≤ i then A.val i j else 0)

/-- `Matrix_Triangular::WriteText(ostream&)` (lines 679-708): prints the
full square grid, one tab-separated row per line, mirrored/zero entries
included. -/
def TriMat.writeText (up : Bool) (A : TriMat) : List (List ℚ) :=
  (List.range A.m).map (fun i => (List.range A.n).map (fun j => A.access up i j))

/-- The row-filling loop of `Matrix_Triangular::ReadText` for upper
storage (lines 860-868): for each row `i ≥ 1` the counter `nb` first
skips the `i` leading entries, then `Val(i, j) = other_rows(nb++)` for
`i ≤ j < n`. -/
def triReadFillUp (m n : ℕ) (other : List ℚ) (d : List ℚ) : List ℚ :=
  ((List.range' 1 (m - 1)).foldl
    (fun (acc : List ℚ × ℕ) i =>
      ((List.range' i (n - i)).foldl
        (fun dl j => dl.set (i * n + j) (readAt other (acc.2 + i + (j - i))))
        acc.1,
       acc.2 + i + (n - i)))
    (d, 0)).1

/-- The row-filling loop of `Matrix_Triangular::ReadText` for lower
storage (lines 869-877): for each row `i ≥ 1`, `Val(i, j) =
other_rows(nb++)` for `j ≤ i`, then `nb` skips the `n - i - 1` trailing
entries. -/
def triReadFillLo (m n : ℕ) (other : List ℚ) (d : List ℚ) : List ℚ :=
  ((List.range' 1 (m - 1)).foldl
    (fun (acc : List ℚ × ℕ) i =>
      (((List.range (i + 1)).foldl
        (fun dl j => dl.set (i * n + j) (readAt other (acc.2 + j)))
        acc.1),
       acc.2 + (i + 1) + (n - (i + 1))))
    (d, 0)).1

/-- `Matrix_Triangular::ReadText(istream&)` (lines 807-878): clears the
matrix, reads the first line as a vector fixing the column count `n`,
reads the remaining values as one flat vector, checks the element count,
reallocates to `m × n` and populates row 0 (all of it for upper storage,
only `(0,0)` for lower), then the remaining rows by the per-storage
column-counting loops.  `none` models a thrown `IOError`. -/
def TriMat.readText (up : Bool) (allocP : ℕ → Option Unit) (alloc : Alloc)
    (A : TriMat) (lines : List (List ℚ)) : Option TriMat :=
  match lines with
  | [] => some (A.clear).1
  | first :: rest =>
    let other := rest.flatten
    let n := first.length
    let m := 1 + other.length / n
    if other.length ≠ (m - 1) * n then none
    else
      match (A.clear).1.reallocate allocP alloc m n with
      | (_, some _) => none
      | (B, none) =>
        let d0 := B.data.getD []
        let d1 :=
          if up then
            (List.range n).foldl (fun dl j => dl.set (0 * n + j) (readAt first j)) d0
          else d0.set (0 * n + 0) (readAt first 0)
        some { B with data := some (if up then triReadFillUp m n other d1
                                    else triReadFillLo m n other d1) }

/-! ### EKF driver entry point (`example/clamped_bar/test_ekf.cpp`)

The driver object (`ExtendedKalmanFilter`) is external to the sampled
source; the runner observes it only through the six calls below, so the
embedding records the sequence of calls as a trace, with `HasFinished`
abstracted as a boolean function of the completed-cycle count. -/

/-- One driver call made by `main` of `test_ekf.cpp`. -/
inductive DriverEvent where
  | init
  | initStep
  | forward
  | analyze
  | finalizeStep
  | finalize
  deriving DecidableEq

/-- The `while (!driver.HasFinished())` loop of `main` (lines 53-59):
each pass performs `InitializeStep; Forward; Analyze; FinalizeStep`. -/
def ekfCycleLoop (hasFinished : ℕ → Bool) : ℕ → ℕ → List DriverEvent
  | _, 0 => []
  | k, fuel + 1 =>
    if hasFinished k then []
    else [.initStep, .forward, .analyze, .finalizeStep] ++
         ekfCycleLoop hasFinished (k + 1) fuel

/-- `main(argc, argv)` of `test_ekf.cpp` (lines 32-66): with an argument
count other than 2 it prints the usage message and returns 1 before any
driver call; otherwise it calls `Initialize`, runs the cycle loop, calls
`Finalize` and returns 0.  The result is the exit code and the trace of
driver calls. -/
def testEkfMain (argc : ℕ) (hasFinished : ℕ → Bool) (fuel : ℕ) :
    Int × List DriverEvent :=
  if argc ≠ 2 then (1, [])
  else (0, [DriverEvent.init] ++ ekfCycleLoop hasFinished 0 fuel ++
           [DriverEvent.finalize])

/-! ### Claim C10 -/

/-- Claim C10: for every system whose matrix reports a non-positive
dimension (`A.GetM() <= 0`), `QmrSym` returns status 0 immediately with
the solution vector unchanged; since the result is the same for every
choice of matrix-vector product, preconditioner, square root and
iteration parameters, none of them is consulted. -/
theorem qmrsym_nonpositive_dimension (P : QmrParams) (x0 : Vec)
    (h : P.N ≤ 0) : QmrSym P x0 = (0, x0) := by
  simp [QmrSym, h]

/-- Witness for `qmrsym_nonpositive_dimension` at a concrete call. -/
theorem qmrsym_nonpositive_dimension_witness :
    QmrSym { N := 0, mulA := fun v => v, precond := fun v => v,
             sqrtQ := fun q => q, tol := 0, max_iter := 7,
             initGuessNull := true, b := [1, 2] } [5, 9] = (0, [5, 9]) :=
  qmrsym_nonpositive_dimension _ _ (by decide)

/-! ### Claim C9 -/

/-- The cycle loop runs exactly `n` full cycles when `HasFinished` first
becomes true after `n` completed cycles. -/
theorem ekfCycleLoop_eq (hf : ℕ → Bool) :
    ∀ n k fuel, (∀ j, j < n → hf (k + j) = false) → hf (k + n) = true →
    n < fuel →
    ekfCycleLoop hf k fuel =
      (List.replicate n
        ([DriverEvent.initStep, .forward, .analyze, .finalizeStep])).flatten := by
  intro n
  induction n with
  | zero =>
    intro k fuel _ hn hfuel
    match fuel, hfuel with
    | fuel + 1, _ =>
      simp only [Nat.add_zero] at hn
      simp [ekfCycleLoop, hn]
  | succ n ih =>
    intro k fuel h0 hn hfuel
    match fuel, hfuel with
    | fuel + 1, hfuel =>
      have hk : hf k = false := by have := h0 0 (by omega); simpa using this
      have hrec := ih (k + 1) fuel
        (fun j hj => by have := h0 (j + 1) (by omega); simpa [Nat.add_assoc, Nat.add_comm 1 j] using this)
        (by have : k + 1 + n = k + (n + 1) := by omega
            rw [this]; exact hn)
        (by omega)
      simp [ekfCycleLoop, hk, hrec, List.replicate_succ]

/-- Claim C9: the runner `main` of `test_ekf.cpp`, on an argument count
other than 2, exits with code 1 before any driver call; with a valid
argument and a driver finishing after `n` cycles it performs exactly
`Initialize`, then `n` cycles of
`InitializeStep; Forward; Analyze; FinalizeStep`, then `Finalize`,
returning 0. -/
theorem ekf_runner_contract (argc : ℕ) (hf : ℕ → Bool) (n fuel : ℕ) :
    (argc ≠ 2 → testEkfMain argc hf fuel = (1, []))
  ∧ ((∀ j, j < n → hf j = false) → hf n = true → n < fuel →
      testEkfMain 2 hf fuel =
        (0, [DriverEvent.init] ++
            (List.replicate n
              ([DriverEvent.initStep, .forward, .analyze, .finalizeStep])).flatten ++
            [DriverEvent.finalize])) := by
  constructor
  · intro h
    simp [testEkfMain, h]
  · intro h0 hn hfuel
    have := ekfCycleLoop_eq hf n 0 fuel (fun j hj => by simpa using h0 j hj)
      (by simpa using hn) hfuel
    simp [testEkfMain, this]

/-- Witness for `ekf_runner_contract`: a driver finishing after two
cycles, with a bad and a good argument count. -/
theorem ekf_runner_contract_witness :
    testEkfMain 3 (fun k => decide (2 ≤ k)) 4 = (1, [])
  ∧ testEkfMain 2 (fun k => decide (2 ≤ k)) 4 =
      (0, [DriverEvent.init,
           .initStep, .forward, .analyze, .finalizeStep,
           .initStep, .forward, .analyze, .finalizeStep,
           .finalize]) := by
  refine ⟨(ekf_runner_contract 3 _ 2 4).1 (by decide), ?_⟩
  have := (ekf_runner_contract 2 (fun k => decide (2 ≤ k)) 2 4).2
    (by decide) (by decide) (by decide)
  simpa using this

/-! ### Claim C8 -/

/-- Claim C8: packed and triangular matrices are logically square after
every operation — the constructor, `Reallocate` and `SetData` force the
column count equal to the row count `i` whatever `j` was passed, and
`Clear`, `Nullify` and every allocation-failure branch leave both
dimensions 0.  (For `Reallocate` the no-op branch keeps the previous
dimensions, so squareness of the input is assumed there.) -/
theorem matrices_always_square (alloc : Alloc) (allocP : ℕ → Option Unit)
    (A : HPMat) (T : TriMat) (i j : ℕ) (buf : List ℚ)
    (hA : A.m = A.n) (hT : T.m = T.n) :
    ((HPMat.construct alloc i j).m = (HPMat.construct alloc i j).n)
  ∧ (((A.reallocate alloc i j).1).m = ((A.reallocate alloc i j).1).n)
  ∧ (((A.setData i j buf).1).m = i ∧ ((A.setData i j buf).1).n = i)
  ∧ (((A.clear).1).m = 0 ∧ ((A.clear).1).n = 0)
  ∧ ((A.nullify).m = 0 ∧ (A.nullify).n = 0)
  ∧ (((TriMat.construct allocP alloc i j).1).m
      = ((TriMat.construct allocP alloc i j).1).n)
  ∧ (((T.reallocate allocP alloc i j).1).m
      = ((T.reallocate allocP alloc i j).1).n)
  ∧ (((T.setData allocP i j buf).1).m = ((T.setData allocP i j buf).1).n)
  ∧ (((T.clear).1).m = 0 ∧ ((T.clear).1).n = 0)
  ∧ ((T.nullify).m = 0 ∧ (T.nullify).n = 0) := by
  refine ⟨?_, ?_, ?_, ?_, ?_, ?_, ?_, ?_, ?_, ?_⟩
  · unfold HPMat.construct
    cases alloc (i * (i + 1) / 2) <;> simp
  · unfold HPMat.reallocate
    by_cases hi : i = A.m
    · simp [hi, hA]
    · cases halloc : alloc (i * (i + 1) / 2) <;> simp [hi, halloc]
  · simp [HPMat.setData]
  · unfold HPMat.clear
    cases A.data <;> simp
  · simp [HPMat.nullify]
  · unfold TriMat.construct
    cases hP : allocP i with
    | none =>
      by_cases hi : i = 0
      · cases halloc : alloc (i * i) <;> simp [hi, halloc, TriMat.empty]
      · simp [hi, TriMat.empty]
    | some u =>
      cases halloc : alloc (i * i) <;> simp [halloc, TriMat.empty]
  · unfold TriMat.reallocate
    by_cases hi : i = T.m
    · simp [hi, hT]
    · cases hP : allocP i with
      | none =>
        by_cases h0 : i = 0
        · subst h0
          cases halloc : alloc (0 * 0) <;> simp [hi, hP, halloc, TriMat.empty]
        · simp [hi, hP, h0, TriMat.empty]
      | some u =>
        cases halloc : alloc (i * i) <;> simp [hi, hP, halloc, TriMat.empty]
  · unfold TriMat.setData
    cases allocP i <;> simp [TriMat.empty]
  · unfold TriMat.clear
    cases T.data <;> simp [TriMat.empty]
  · simp [TriMat.nullify, TriMat.empty]

/-- Witness for `matrices_always_square` at concrete matrices and a
concrete allocator. -/
theorem matrices_always_square_witness :
    ((HPMat.setData ⟨2, 2, some [1, 2, 3]⟩ 3 7 [4, 5, 6, 7, 8, 9]).1).m = 3
  ∧ ((TriMat.nullify ⟨1, 1, some [0], some [2]⟩).m = 0
      ∧ (TriMat.nullify ⟨1, 1, some [0], some [2]⟩).n = 0) :=
  ⟨(matrices_always_square (fun k => some (List.replicate k 0))
      (fun _ => some ()) ⟨2, 2, some [1, 2, 3]⟩ ⟨1, 1, some [0], some [2]⟩
      3 7 [4, 5, 6, 7, 8, 9] (by decide) (by decide)).2.2.1.1,
   (matrices_always_square (fun k => some (List.replicate k 0))
      (fun _ => some ()) ⟨2, 2, some [1, 2, 3]⟩ ⟨1, 1, some [0], some [2]⟩
      3 7 [4, 5, 6, 7, 8, 9] (by decide) (by decide)).2.2.2.2.2.2.2.2.2⟩

/-! ### Claim C6 -/

/-- Claim C6: after `SetData(i, j, data)` the matrix holds exactly the
caller's buffer; `Nullify()` then leaves the matrix reporting `0x0`
dimensions with a null data pointer, and destruction (`Clear`) of the
nullified matrix frees nothing — so the original buffer is never
released by the matrix.  (`Nullify` itself performs no data-buffer
deallocation in the source; for the triangular class it frees only the
internal row-pointer array.) -/
theorem nullify_after_setdata (A : HPMat) (T : TriMat)
    (allocP : ℕ → Option Unit) (i j : ℕ) (buf : List ℚ)
    (hP : allocP i = some ()) :
    ((A.setData i j buf).1).data = some buf
  ∧ ((A.setData i j buf).1).m = i ∧ ((A.setData i j buf).1).n = i
  ∧ HPMat.nullify ((A.setData i j buf).1) = ⟨0, 0, none⟩
  ∧ (HPMat.clear (HPMat.nullify ((A.setData i j buf).1))).2 = []
  ∧ ((T.setData allocP i j buf).1).data = some buf
  ∧ ((T.setData allocP i j buf).1).m = i ∧ ((T.setData allocP i j buf).1).n = i
  ∧ TriMat.nullify ((T.setData allocP i j buf).1) = TriMat.empty
  ∧ (TriMat.empty).m = 0 ∧ (TriMat.empty).n = 0 ∧ (TriMat.empty).data = none
  ∧ (TriMat.clear (TriMat.nullify ((T.setData allocP i j buf).1))).2 = [] := by
  refine ⟨?_, ?_, ?_, ?_, ?_, ?_, ?_, ?_, ?_, ?_, ?_, ?_, ?_⟩ <;>
    simp [HPMat.setData, HPMat.nullify, HPMat.clear,
          TriMat.setData, TriMat.nullify, TriMat.clear, TriMat.empty, hP]

/-- Witness for `nullify_after_setdata` at a concrete matrix, buffer and
pointer-array allocator. -/
theorem nullify_after_setdata_witness :
    ((HPMat.setData ⟨1, 1, some [9]⟩ 2 2 [1, 2, 3]).1).data = some [1, 2, 3]
  ∧ (HPMat.clear (HPMat.nullify ((HPMat.setData ⟨1, 1, some [9]⟩ 2 2 [1, 2, 3]).1))).2 = [] :=
  ⟨(nullify_after_setdata ⟨1, 1, some [9]⟩ ⟨1, 1, some [0], some [9]⟩
      (fun _ => some ()) 2 2 [1, 2, 3] (by decide)).1,
   (nullify_after_setdata ⟨1, 1, some [9]⟩ ⟨1, 1, some [0], some [9]⟩
      (fun _ => some ()) 2 2 [1, 2, 3] (by decide)).2.2.2.2.1⟩

/-! ### Claim C3 -/

/-- Claim C3: `Reallocate(i, j)` is a no-op (contents and dimensions
unchanged, no error) when `i` equals the current row count; when `i`
differs it resizes to the new layout size (`i(i+1)/2` packed, `i*i`
triangular); and when the underlying allocation fails the matrix is
left in the empty `0x0` state with a null data pointer and the
operation fails with `OutOfMemory` — never a partially-resized state.
The allocator is assumed to satisfy the C++ allocator contract that a
zero-size allocation cannot fail (the triangular source deliberately
does not throw for `i == 0`). -/
theorem reallocate_contract (alloc : Alloc) (allocP : ℕ → Option Unit)
    (A : HPMat) (T : TriMat) (i j : ℕ)
    (hlen : ∀ k b, alloc k = some b → b.length = k)
    (h0 : alloc 0 ≠ none) (hP0 : allocP 0 ≠ none) :
    (i = A.m → A.reallocate alloc i j = (A, none))
  ∧ (∀ buf, i ≠ A.m → alloc (i * (i + 1) / 2) = some buf →
      A.reallocate alloc i j = ({ m := i, n := i, data := some buf }, none)
      ∧ buf.length = i * (i + 1) / 2)
  ∧ (i ≠ A.m → alloc (i * (i + 1) / 2) = none →
      A.reallocate alloc i j
        = ({ m := 0, n := 0, data := none }, some .outOfMemory))
  ∧ (i = T.m → T.reallocate allocP alloc i j = (T, none))
  ∧ (∀ buf, i ≠ T.m → allocP i = some () → alloc (i * i) = some buf →
      T.reallocate allocP alloc i j
        = ({ m := i, n := i, me := some (triMe i), data := some buf }, none)
      ∧ buf.length = i * i)
  ∧ (i ≠ T.m → (allocP i = none ∨ alloc (i * i) = none) →
      T.reallocate allocP alloc i j = (TriMat.empty, some .outOfMemory)) := by
  refine ⟨?_, ?_, ?_, ?_, ?_, ?_⟩
  · intro hi
    simp [HPMat.reallocate, hi]
  · intro buf hi hb
    exact ⟨by simp [HPMat.reallocate, hi, hb], hlen _ _ hb⟩
  · intro hi hb
    simp [HPMat.reallocate, hi, hb]
  · intro hi
    simp [TriMat.reallocate, hi]
  · intro buf hi hp hb
    exact ⟨by simp [TriMat.reallocate, hi, hp, hb], hlen _ _ hb⟩
  · intro hi hfail
    have hi0 : i ≠ 0 := by
      intro h
      subst h
      cases hfail with
      | inl hp => exact hP0 hp
      | inr hb => exact h0 (by simpa using hb)
    cases hp : allocP i with
    | none => simp [TriMat.reallocate, hi, hp, hi0]
    | some u =>
      cases hfail with
      | inl hpn => rw [hp] at hpn; cases hpn
      | inr hb => simp [TriMat.reallocate, hi, hp, hb, hi0]

/-- A concrete allocator succeeding on every request of at most 6
elements and failing above (used only to witness the contracts). -/
def allocUpTo6 : Alloc := fun k => if k ≤ 6 then some (List.replicate k 0) else none

/-- `allocUpTo6` returns buffers of the requested length. -/
theorem allocUpTo6_len : ∀ k b, allocUpTo6 k = some b → b.length = k := by
  intro k b hb
  unfold allocUpTo6 at hb
  split at hb
  · injection hb with hb'
    subst hb'
    simp
  · cases hb

/-- Witness for `reallocate_contract`: a concrete matrix under
`allocUpTo6`. -/
theorem reallocate_contract_witness :
    HPMat.reallocate allocUpTo6 ⟨2, 2, some [1, 2, 3]⟩ 3 3
      = (⟨3, 3, some [0, 0, 0, 0, 0, 0]⟩, none)
  ∧ HPMat.reallocate allocUpTo6 ⟨2, 2, some [1, 2, 3]⟩ 4 4
      = (⟨0, 0, none⟩, some .outOfMemory)
  ∧ TriMat.reallocate (fun _ => some ()) allocUpTo6
      ⟨1, 1, some [0], some [5]⟩ 3 3
      = (TriMat.empty, some .outOfMemory) := by
  refine ⟨?_, ?_, ?_⟩
  · have h := ((reallocate_contract allocUpTo6 (fun _ => some ())
      ⟨2, 2, some [1, 2, 3]⟩ ⟨1, 1, some [0], some [5]⟩ 3 3
      allocUpTo6_len (by decide) (by decide)).2.1
      [0, 0, 0, 0, 0, 0] (by decide) (by decide)).1
    simpa using h
  · exact (reallocate_contract allocUpTo6 (fun _ => some ())
      ⟨2, 2, some [1, 2, 3]⟩ ⟨1, 1, some [0], some [5]⟩ 4 4
      allocUpTo6_len (by decide) (by decide)).2.2.1 (by decide) (by decide)
  · exact (reallocate_contract allocUpTo6 (fun _ => some ())
      ⟨2, 2, some [1, 2, 3]⟩ ⟨1, 1, some [0], some [5]⟩ 3 3
      allocUpTo6_len (by decide) (by decide)).2.2.2.2.2
      (by decide) (Or.inr (by decide))

/-! ### Claim C1 -/

/-- Claim C1: each of the five SQMR breakdown conditions — `rho == 0`,
`delta == 0`, `ep == 0`, `beta == 0`, `gamma == 0` — halts the
iteration immediately (the very next loop evaluation returns the failed
state, whatever fuel remains) and records a distinct nonzero status
code (1, 3, 4, 5, 6 respectively) which `iter.ErrorCode()` — the value
`QmrSym` returns — reports to the caller; a converged run (residual
norm within tolerance, no failure recorded) returns status 0.  No
exception is involved: the status is an ordinary return value. -/
theorem qmrsym_breakdown_codes (P : QmrParams) (st : QmrState) (fuel : ℕ) :
    (qmrFinished P st = false → st.rho = 0 →
      qmrLoop P (fuel + 1) st = { st with err := 1 }
      ∧ qmrErrorCode P { st with err := 1 } = 1)
  ∧ (qmrFinished P st = false → st.rho ≠ 0 → qmrDelta st = 0 →
      qmrLoop P (fuel + 1) st = { st with v := qmrVN st, y := qmrYN st, err := 3 }
      ∧ qmrErrorCode P { st with v := qmrVN st, y := qmrYN st, err := 3 } = 3)
  ∧ (qmrFinished P st = false → st.rho ≠ 0 → qmrDelta st ≠ 0 →
      qmrEp P st = 0 →
      qmrLoop P (fuel + 1) st
        = { st with v := qmrVN st, y := qmrYN st, p := qmrPnew st,
                    p_tld := qmrPtld P st, ep := qmrEp P st, err := 4 }
      ∧ qmrErrorCode P
          { st with
            v := qmrVN st, y := qmrYN st, p := qmrPnew st,
            p_tld := qmrPtld P st, ep := qmrEp P st, err := 4 } = 4)
  ∧ (qmrFinished P st = false → st.rho ≠ 0 → qmrDelta st ≠ 0 →
      qmrEp P st ≠ 0 → qmrBeta P st = 0 →
      qmrLoop P (fuel + 1) st
        = { st with v := qmrVN st, y := qmrYN st, p := qmrPnew st,
                    p_tld := qmrPtld P st, ep := qmrEp P st, err := 5 }
      ∧ qmrErrorCode P
          { st with
            v := qmrVN st, y := qmrYN st, p := qmrPnew st,
            p_tld := qmrPtld P st, ep := qmrEp P st, err := 5 } = 5)
  ∧ (qmrFinished P st = false → st.rho ≠ 0 → qmrDelta st ≠ 0 →
      qmrEp P st ≠ 0 → qmrBeta P st ≠ 0 → qmrGamma P st = 0 →
      qmrLoop P (fuel + 1) st
        = { st with v := qmrVnext P st, y := qmrYnext P st,
                    p := qmrPnew st, p_tld := qmrPtld P st,
                    ep := qmrEp P st, rho := qmrRho P st,
                    theta := qmrTheta P st, gamma := qmrGamma P st, err := 6 }
      ∧ qmrErrorCode P
          { st with
            v := qmrVnext P st, y := qmrYnext P st,
            p := qmrPnew st, p_tld := qmrPtld P st,
            ep := qmrEp P st, rho := qmrRho P st,
            theta := qmrTheta P st, gamma := qmrGamma P st,
            err := 6 } = 6)
  ∧ (qmrResNorm P st ≤ P.tol → st.err = 0 →
      qmrLoop P fuel st = st ∧ qmrErrorCode P st = 0)
  ∧ (([1, 3, 4, 5, 6] : List Int).Pairwise (· ≠ ·)
      ∧ ∀ c ∈ ([1, 3, 4, 5, 6] : List Int), c ≠ 0)
  ∧ (∀ x0 : Vec, ¬ P.N ≤ 0 →
      QmrSym P x0
        = (qmrErrorCode P (qmrLoop P (P.max_iter + 1) (qmrInit P x0)),
           (qmrLoop P (P.max_iter + 1) (qmrInit P x0)).x)) := by
  refine ⟨?_, ?_, ?_, ?_, ?_, ?_, by decide, ?_⟩
  · intro hf h1
    refine ⟨?_, by simp [qmrErrorCode]⟩
    simp [qmrLoop, hf, qmrIter, h1]
  · intro hf h1 h2
    refine ⟨?_, by simp [qmrErrorCode]⟩
    simp [qmrLoop, hf, qmrIter, h1, h2]
  · intro hf h1 h2 h3
    refine ⟨?_, by simp [qmrErrorCode]⟩
    simp [qmrLoop, hf, qmrIter, h1, h2, h3]
  · intro hf h1 h2 h3 h4
    refine ⟨?_, by simp [qmrErrorCode]⟩
    simp [qmrLoop, hf, qmrIter, h1, h2, h3, h4]
  · intro hf h1 h2 h3 h4 h5
    refine ⟨?_, by simp [qmrErrorCode]⟩
    simp [qmrLoop, hf, qmrIter, h1, h2, h3, h4, h5]
  · intro hconv herr
    have hfin : qmrFinished P st = true := by
      simp [qmrFinished, hconv]
    refine ⟨?_, by simp [qmrErrorCode, herr, hconv]⟩
    cases fuel with
    | zero => simp [qmrLoop]
    | succ f => simp [qmrLoop, hfin]
  · intro x0 hN
    simp [QmrSym, hN]

/-- Concrete solver parameters triggering breakdowns 1 and 3 and the
converged case (identity operators, identity square root). -/
def qmrPb1 : QmrParams :=
  { N := 1, mulA := fun v => v, precond := fun v => v, sqrtQ := fun q => q,
    tol := 0, max_iter := 10, initGuessNull := true, b := [1] }

/-- Concrete parameters whose matrix-vector product is zero, triggering
breakdown 4 (`ep == 0`). -/
def qmrPb4 : QmrParams :=
  { N := 1, mulA := fun _ => [0], precond := fun v => v, sqrtQ := fun q => q,
    tol := 0, max_iter := 10, initGuessNull := true, b := [1] }

/-- Concrete parameters whose square-root function sends `10` to `0`,
triggering breakdown 6 (`gamma == 0`). -/
def qmrPb6 : QmrParams :=
  { N := 1, mulA := fun v => v, precond := fun v => v,
    sqrtQ := fun q => if q = 10 then 0 else if q = 0 then 3 else q,
    tol := 0, max_iter := 10, initGuessNull := true, b := [1] }

/-- A state with `rho = 0` (breakdown 1). -/
def qmrStb1 : QmrState :=
  { x := [0], r := [1], v := [1], y := [1], p := [1], p_tld := [1],
    d := [1], s := [1], theta := 0, gamma := 1, eta := -1, ep := 0,
    rho := 0, nb := 0, err := 0 }

/-- A state with orthogonal `v` and `y`, so `delta = 0` (breakdown 3). -/
def qmrStb3 : QmrState :=
  { x := [0, 0], r := [1, 0], v := [1, 0], y := [0, 1], p := [0, 0],
    p_tld := [0, 0], d := [0, 0], s := [0, 0], theta := 0, gamma := 1,
    eta := -1, ep := 0, rho := 1, nb := 0, err := 0 }

/-- A generic healthy first-iteration state; under `qmrPb4` it reaches
`ep = 0`, under `qmrPb6` it reaches `gamma = 0`. -/
def qmrStb4 : QmrState :=
  { x := [0], r := [1], v := [1], y := [1], p := [1], p_tld := [1],
    d := [1], s := [1], theta := 0, gamma := 1, eta := -1, ep := 0,
    rho := 1, nb := 0, err := 0 }

/-- A converged state: zero residual, no failure recorded. -/
def qmrStconv : QmrState :=
  { x := [1], r := [0], v := [0], y := [0], p := [0], p_tld := [0],
    d := [0], s := [0], theta := 0, gamma := 1, eta := -1, ep := 0,
    rho := 1, nb := 2, err := 0 }

/-- Witness for `qmrsym_breakdown_codes`: breakdowns 1, 3, 4 and 6 and a
converged run, each at a concrete state. -/
theorem qmrsym_breakdown_codes_witness :
    qmrLoop qmrPb1 5 qmrStb1 = { qmrStb1 with err := 1 }
  ∧ qmrLoop qmrPb1 5 qmrStb3
      = { qmrStb3 with v := qmrVN qmrStb3, y := qmrYN qmrStb3, err := 3 }
  ∧ (qmrLoop qmrPb4 5 qmrStb4).err = 4
  ∧ (qmrLoop qmrPb6 5 qmrStb4).err = 6
  ∧ qmrLoop qmrPb1 5 qmrStconv = qmrStconv
  ∧ qmrErrorCode qmrPb1 qmrStconv = 0 := by
  have e1 : qmrFinished qmrPb1 qmrStb1 = false := by
    norm_num [qmrFinished, qmrResNorm, dotProd, qmrPb1, qmrStb1]
  have e2 : qmrFinished qmrPb1 qmrStb3 = false := by
    norm_num [qmrFinished, qmrResNorm, dotProd, qmrPb1, qmrStb3]
  have e3 : qmrFinished qmrPb4 qmrStb4 = false := by
    norm_num [qmrFinished, qmrResNorm, dotProd, qmrPb4, qmrStb4]
  have e4 : qmrFinished qmrPb6 qmrStb4 = false := by
    norm_num [qmrFinished, qmrResNorm, dotProd, qmrPb6, qmrStb4]
  have d3 : qmrDelta qmrStb3 = 0 := by
    norm_num [qmrDelta, qmrVN, qmrYN, vecScale, dotProd, qmrStb3]
  have d4' : qmrDelta qmrStb4 = 1 := by
    norm_num [qmrDelta, qmrVN, qmrYN, vecScale, dotProd, qmrStb4]
  have p4 : qmrPnew qmrStb4 = [1] := by
    norm_num [qmrPnew, qmrYN, vecScale, qmrStb4]
  have ep4 : qmrEp qmrPb4 qmrStb4 = 0 := by
    norm_num [qmrEp, qmrPtld, qmrPb4, p4, dotProd]
  have ep6 : qmrEp qmrPb6 qmrStb4 = 1 := by
    simp only [qmrEp, qmrPtld, p4]
    norm_num [qmrPb6, dotProd]
  have b6 : qmrBeta qmrPb6 qmrStb4 = 1 := by
    simp only [qmrBeta, ep6, d4']
    norm_num
  have v6 : qmrVnext qmrPb6 qmrStb4 = [0] := by
    simp only [qmrVnext, b6, qmrPtld, p4, qmrVN]
    norm_num [qmrPb6, vecScale, vecAxpy, qmrStb4]
  have r6 : qmrRho qmrPb6 qmrStb4 = 3 := by
    simp only [qmrRho, qmrYnext, v6]
    norm_num [qmrPb6, dotProd]
  have t6 : qmrTheta qmrPb6 qmrStb4 = 3 := by
    simp only [qmrTheta, r6, b6]
    norm_num [qmrStb4]
  have g6 : qmrGamma qmrPb6 qmrStb4 = 0 := by
    simp only [qmrGamma, t6]
    norm_num [qmrPb6]
  have cnv : qmrResNorm qmrPb1 qmrStconv ≤ qmrPb1.tol := by
    norm_num [qmrResNorm, dotProd, qmrPb1, qmrStconv]
  refine ⟨?_, ?_, ?_, ?_, ?_, ?_⟩
  · exact ((qmrsym_breakdown_codes qmrPb1 qmrStb1 4).1 e1 (by decide)).1
  · exact ((qmrsym_breakdown_codes qmrPb1 qmrStb3 4).2.1 e2 (by decide) d3).1
  · have h := ((qmrsym_breakdown_codes qmrPb4 qmrStb4 4).2.2.1
      e3 (by decide) (by rw [d4']; decide) ep4).1
    rw [h]
  · have h := ((qmrsym_breakdown_codes qmrPb6 qmrStb4 4).2.2.2.2.1
      e4 (by decide) (by rw [d4']; decide) (by rw [ep6]; decide)
      (by rw [b6]; decide) g6).1
    rw [h]
  · exact ((qmrsym_breakdown_codes qmrPb1 qmrStconv 5).2.2.2.2.2.1
      cnv (by decide)).1
  · exact ((qmrsym_breakdown_codes qmrPb1 qmrStconv 5).2.2.2.2.2.1
      cnv (by decide)).2

/-! ### Claim C2 -/

/-- The `d` update exactly as claim C2 words it: the previous `d`
scaled by `theta^2 * gamma^2` where `theta` and `gamma` are both the
CURRENT quasi-minimization scalars, plus `eta * p`.  (The source
instead uses the previous iteration's `theta_1`, line 167.) -/
def qmrDnewClaimed (P : QmrParams) (st : QmrState) : Vec :=
  vecAxpy (qmrEta P st) (qmrPnew st)
    (vecScale (qmrTheta P st * qmrTheta P st * qmrGamma P st * qmrGamma P st)
      st.d)

/-- Concrete solver parameters for evaluating one non-first
iteration. -/
def qmrPc2 : QmrParams :=
  { N := 1, mulA := fun v => v, precond := fun v => v, sqrtQ := fun q => q,
    tol := 0, max_iter := 10, initGuessNull := true, b := [1] }

/-- A concrete non-first-iteration state (`nb = 1`) on which the
current and previous `theta` differ. -/
def qmrStc2 : QmrState :=
  { x := [0], r := [1], v := [1], y := [1], p := [0], p_tld := [0],
    d := [1], s := [1], theta := 1, gamma := 1, eta := -1, ep := 1,
    rho := 1, nb := 1, err := 0 }

/-- The state produced by one `QmrSym` iteration from `qmrStc2`. -/
def qmrStN2 : QmrState :=
  { x := [2], r := [-1], v := [0], y := [0], p := [1], p_tld := [1],
    d := [2], s := [2], theta := 0, gamma := 1, eta := 1, ep := 1,
    rho := 0, nb := 2, err := 0 }

/-- Evaluation of the loop body at the concrete state `qmrStc2`. -/
theorem qmrIter_eval_concrete :
    qmrIter qmrPc2 qmrStc2 = QmrStep.next qmrStN2 := by
  have hd : qmrDelta qmrStc2 = 1 := by
    norm_num [qmrDelta, qmrVN, qmrYN, vecScale, dotProd, qmrStc2]
  have hp : qmrPnew qmrStc2 = [1] := by
    norm_num [qmrPnew, qmrYN, qmrVN, qmrDelta, vecScale, vecAxpy, dotProd,
              qmrStc2]
  have hptld : qmrPtld qmrPc2 qmrStc2 = [1] := by
    simp only [qmrPtld, hp]
    norm_num [qmrPc2]
  have hep : qmrEp qmrPc2 qmrStc2 = 1 := by
    simp only [qmrEp, hp, hptld]
    norm_num [dotProd]
  have hb : qmrBeta qmrPc2 qmrStc2 = 1 := by
    simp only [qmrBeta, hep, hd]
    norm_num
  have hv : qmrVnext qmrPc2 qmrStc2 = [0] := by
    simp only [qmrVnext, hb, hptld, qmrVN]
    norm_num [vecScale, vecAxpy, qmrStc2]
  have hy : qmrYnext qmrPc2 qmrStc2 = [0] := by
    simp only [qmrYnext, hv]
    norm_num [qmrPc2]
  have hrho2 : qmrRho qmrPc2 qmrStc2 = 0 := by
    simp only [qmrRho, hy]
    norm_num [qmrPc2, dotProd]
  have ht : qmrTheta qmrPc2 qmrStc2 = 0 := by
    simp only [qmrTheta, hrho2, hb]
    norm_num [qmrStc2]
  have hg : qmrGamma qmrPc2 qmrStc2 = 1 := by
    simp only [qmrGamma, ht]
    norm_num [qmrPc2]
  have he : qmrEta qmrPc2 qmrStc2 = 1 := by
    simp only [qmrEta, hg, hb]
    norm_num [qmrStc2]
  have hdn : qmrDnew qmrPc2 qmrStc2 = [2] := by
    simp only [qmrDnew, he, hp, hg]
    norm_num [qmrStc2, vecScale, vecAxpy]
  have hsn : qmrSnew qmrPc2 qmrStc2 = [2] := by
    simp only [qmrSnew, he, hptld, hg]
    norm_num [qmrStc2, vecScale, vecAxpy]
  have h1 : ¬ qmrStc2.rho = 0 := by norm_num [qmrStc2]
  have h2 : ¬ qmrDelta qmrStc2 = 0 := by rw [hd]; norm_num
  have h3 : ¬ qmrEp qmrPc2 qmrStc2 = 0 := by rw [hep]; norm_num
  have h4 : ¬ qmrBeta qmrPc2 qmrStc2 = 0 := by rw [hb]; norm_num
  have h5 : ¬ qmrGamma qmrPc2 qmrStc2 = 0 := by rw [hg]; norm_num
  unfold qmrIter
  rw [if_neg h1, if_neg h2, if_neg h3, if_neg h4, if_neg h5]
  simp only [hdn, hsn, hv, hy, hp, hptld, ht, hg, he, hep, hrho2, qmrStN2]
  norm_num [qmrStc2, vecAxpy]

/-- Counterexample to claim C2 as stated: at the concrete non-first
iteration from `qmrStc2` the loop body continues normally, yet the new
`d` differs from the value prescribed by scaling with the CURRENT
`theta` — the source scales by the previous iteration's `theta`. -/
theorem qmr_update_current_theta_false :
    (qmrIter qmrPc2 qmrStc2).isNext = true
  ∧ qmrStc2.nb ≠ 0
  ∧ ((qmrIter qmrPc2 qmrStc2).state).d ≠ qmrDnewClaimed qmrPc2 qmrStc2 := by
  have hcl : qmrDnewClaimed qmrPc2 qmrStc2 = [1] := by
    have hd : qmrDelta qmrStc2 = 1 := by
      norm_num [qmrDelta, qmrVN, qmrYN, vecScale, dotProd, qmrStc2]
    have hp : qmrPnew qmrStc2 = [1] := by
      norm_num [qmrPnew, qmrYN, qmrVN, qmrDelta, vecScale, vecAxpy, dotProd,
                qmrStc2]
    have hptld : qmrPtld qmrPc2 qmrStc2 = [1] := by
      simp only [qmrPtld, hp]
      norm_num [qmrPc2]
    have hep : qmrEp qmrPc2 qmrStc2 = 1 := by
      simp only [qmrEp, hp, hptld]
      norm_num [dotProd]
    have hb : qmrBeta qmrPc2 qmrStc2 = 1 := by
      simp only [qmrBeta, hep, hd]
      norm_num
    have hv : qmrVnext qmrPc2 qmrStc2 = [0] := by
      simp only [qmrVnext, hb, hptld, qmrVN]
      norm_num [vecScale, vecAxpy, qmrStc2]
    have hy : qmrYnext qmrPc2 qmrStc2 = [0] := by
      simp only [qmrYnext, hv]
      norm_num [qmrPc2]
    have hrho2 : qmrRho qmrPc2 qmrStc2 = 0 := by
      simp only [qmrRho, hy]
      norm_num [qmrPc2, dotProd]
    have ht : qmrTheta qmrPc2 qmrStc2 = 0 := by
      simp only [qmrTheta, hrho2, hb]
      norm_num [qmrStc2]
    have hg : qmrGamma qmrPc2 qmrStc2 = 1 := by
      simp only [qmrGamma, ht]
      norm_num [qmrPc2]
    have he : qmrEta qmrPc2 qmrStc2 = 1 := by
      simp only [qmrEta, hg, hb]
      norm_num [qmrStc2]
    simp only [qmrDnewClaimed, he, hp, ht, hg]
    norm_num [qmrStc2, vecScale, vecAxpy]
  refine ⟨?_, by norm_num [qmrStc2], ?_⟩
  · rw [qmrIter_eval_concrete]
    rfl
  · rw [qmrIter_eval_concrete, hcl]
    simp [QmrStep.state, qmrStN2]

/-- Claim C2 as amended: in every iteration after the first that does
not break down, the new `d` (resp. `s`) equals the previous `d`
(resp. `s`) scaled by `theta_1^2 * gamma^2` — `theta_1` the PREVIOUS
iteration's `theta`, `gamma` the current one — plus `eta` times `p`
(resp. `p_tld = A*p`); then `x` is incremented by the new `d` and `r`
decremented by the new `s`. -/
theorem qmr_update_recurrence (P : QmrParams) (st st' : QmrState)
    (hnb : st.nb ≠ 0) (hstep : qmrIter P st = QmrStep.next st') :
    st'.d = vecAxpy (qmrEta P st) (qmrPnew st)
        (vecScale (st.theta * st.theta * qmrGamma P st * qmrGamma P st) st.d)
  ∧ st'.s = vecAxpy (qmrEta P st) (qmrPtld P st)
        (vecScale (st.theta * st.theta * qmrGamma P st * qmrGamma P st) st.s)
  ∧ st'.x = vecAxpy 1 st'.d st.x
  ∧ st'.r = vecAxpy (-1) st'.s st.r := by
  unfold qmrIter at hstep
  split_ifs at hstep
  cases hstep
  refine ⟨?_, ?_, ?_, ?_⟩ <;> simp [qmrDnew, qmrSnew, hnb]

/-- Witness for `qmr_update_recurrence` at the concrete iteration
`qmrStc2 → qmrStN2`. -/
theorem qmr_update_recurrence_witness :
    qmrStN2.d = vecAxpy (qmrEta qmrPc2 qmrStc2) (qmrPnew qmrStc2)
        (vecScale (qmrStc2.theta * qmrStc2.theta * qmrGamma qmrPc2 qmrStc2 *
          qmrGamma qmrPc2 qmrStc2) qmrStc2.d)
  ∧ qmrStN2.x = vecAxpy 1 qmrStN2.d qmrStc2.x :=
  ⟨(qmr_update_recurrence qmrPc2 qmrStc2 qmrStN2 (by norm_num [qmrStc2])
      qmrIter_eval_concrete).1,
   (qmr_update_recurrence qmrPc2 qmrStc2 qmrStN2 (by norm_num [qmrStc2])
      qmrIter_eval_concrete).2.2.1⟩

/-! ### Claim C4 -/

/-- Reading exactly the scalars that were written leaves the rest of
the stream untouched. -/
theorem readScalars_exact (q : List ℚ) (rest : List BinTok) :
    readScalars q.length (q.map .scal ++ rest) = some (q, rest) := by
  induction q with
  | nil => rfl
  | cons a q ih => simp [readScalars, ih]

/-- Claim C4: a matrix constructed as `(i, i)` reports `GetDataSize()`
equal to the layout's stored-element count (`i(i+1)/2` packed, `i*i`
triangular), and binary `Write` followed by binary `Read` round-trips:
`Write` emits the two dimension integers then the stored buffer in
storage order, `Read` reallocates to the persisted dimensions before
reading the payload, and the result has identical dimensions and
identical stored contents.  (Stated over an allocator that does not
fail; `B`/`U` are the arbitrary square destination matrices `Read` is
invoked on.) -/
theorem binary_write_read_roundtrip (alloc : Alloc)
    (allocP : ℕ → Option Unit) (i : ℕ) (A B : HPMat) (T U : TriMat)
    (rest restT : List BinTok) (datA datT : List ℚ)
    (halloc : ∀ k, alloc k ≠ none) (hallocP : ∀ k, allocP k ≠ none)
    (hA : A.data = some datA) (hAlen : datA.length = A.m * (A.m + 1) / 2)
    (hBsq : B.n = B.m)
    (hT : T.data = some datT) (hTlen : datT.length = T.m * T.n)
    (hUsq : U.n = U.m) :
    ((HPMat.construct alloc i i).m = i
      ∧ (HPMat.construct alloc i i).getDataSize = i * (i + 1) / 2)
  ∧ (((TriMat.construct allocP alloc i i).1).m = i
      ∧ ((TriMat.construct allocP alloc i i).1).getDataSize = i * i)
  ∧ HPMat.readBin alloc B (A.writeBin ++ rest)
      = some ({ m := A.m, n := A.m, data := some datA }, rest)
  ∧ (∃ V, TriMat.readBin allocP alloc U (T.writeBin ++ restT)
        = some (V, restT)
      ∧ V.m = T.m ∧ V.n = T.m ∧ V.data = some datT) := by
  have hAtake : datA.take (A.m * (A.m + 1) / 2) = datA := by
    rw [← hAlen]
    exact List.take_length datA
  have hTtake : datT.take (T.m * T.n) = datT := by
    rw [← hTlen]
    exact List.take_length datT
  refine ⟨?_, ?_, ?_, ?_⟩
  · obtain ⟨buf, hbuf⟩ := Option.ne_none_iff_exists'.mp (halloc (i * (i + 1) / 2))
    constructor
    · simp [HPMat.construct, hbuf]
    · simp [HPMat.construct, hbuf, HPMat.getDataSize]
  · obtain ⟨u, hu⟩ := Option.ne_none_iff_exists'.mp (hallocP i)
    obtain ⟨buf, hbuf⟩ := Option.ne_none_iff_exists'.mp (halloc (i * i))
    constructor
    · simp [TriMat.construct, hu, hbuf]
    · simp [TriMat.construct, hu, hbuf, TriMat.getDataSize]
  · have hw : A.writeBin ++ rest
        = .i32 A.m :: .i32 A.n :: (datA.map .scal ++ rest) := by
      simp [HPMat.writeBin, hA, HPMat.getDataSize, hAtake]
    rw [hw]
    by_cases hm : A.m = B.m
    · have hre : B.reallocate alloc A.m A.n = (B, none) := by
        simp [HPMat.reallocate, hm]
      have hcount : B.getDataSize = datA.length := by
        rw [HPMat.getDataSize, ← hm, hAlen]
      simp only [HPMat.readBin, hre]
      rw [hcount, readScalars_exact]
      simp [← hm, hBsq]
    · obtain ⟨buf, hbuf⟩ :=
        Option.ne_none_iff_exists'.mp (halloc (A.m * (A.m + 1) / 2))
      have hre : B.reallocate alloc A.m A.n
          = (⟨A.m, A.m, some buf⟩, none) := by
        simp [HPMat.reallocate, hm, hbuf]
      have hcount : (HPMat.mk A.m A.m (some buf)).getDataSize
          = datA.length := by
        simp [HPMat.getDataSize, hAlen]
      simp only [HPMat.readBin, hre]
      rw [hcount, readScalars_exact]
  · have hw : T.writeBin ++ restT
        = .i32 T.m :: .i32 T.n :: (datT.map .scal ++ restT) := by
      simp [TriMat.writeBin, hT, hTtake]
    rw [hw]
    by_cases hm : T.m = U.m
    · have hre : U.reallocate allocP alloc T.m T.n = (U, none) := by
        simp [TriMat.reallocate, hm]
      simp only [TriMat.readBin, hre]
      rw [← hTlen, readScalars_exact]
      exact ⟨{ U with data := some datT }, rfl, by simp [← hm],
        by simp [hUsq, ← hm], rfl⟩
    · obtain ⟨u, hu⟩ := Option.ne_none_iff_exists'.mp (hallocP T.m)
      obtain ⟨buf, hbuf⟩ := Option.ne_none_iff_exists'.mp (halloc (T.m * T.m))
      have hre : U.reallocate allocP alloc T.m T.n
          = (⟨T.m, T.m, some (triMe T.m), some buf⟩, none) := by
        simp [TriMat.reallocate, hm, hu, hbuf]
      simp only [TriMat.readBin, hre]
      rw [← hTlen, readScalars_exact]
      exact ⟨_, rfl, rfl, rfl, rfl⟩

/-- Witness for `binary_write_read_roundtrip`: a concrete `2x2` packed
matrix and a concrete `2x2` triangular matrix written and re-read into
fresh empty matrices. -/
theorem binary_write_read_roundtrip_witness :
    HPMat.readBin (fun k => some (List.replicate k 0)) ⟨0, 0, none⟩
      (HPMat.writeBin ⟨2, 2, some [5, 6, 7]⟩ ++ [])
      = some (⟨2, 2, some [5, 6, 7]⟩, [])
  ∧ (∃ V, TriMat.readBin (fun _ => some ())
        (fun k => some (List.replicate k 0)) TriMat.empty
        (TriMat.writeBin ⟨2, 2, some [0, 2], some [1, 2, 3, 4]⟩ ++ [])
        = some (V, [])
      ∧ V.m = 2 ∧ V.n = 2 ∧ V.data = some [1, 2, 3, 4]) := by
  have h := binary_write_read_roundtrip (fun k => some (List.replicate k 0))
    (fun _ => some ()) 1 ⟨2, 2, some [5, 6, 7]⟩ ⟨0, 0, none⟩
    ⟨2, 2, some [0, 2], some [1, 2, 3, 4]⟩ TriMat.empty [] []
    [5, 6, 7] [1, 2, 3, 4]
    (fun k => by simp) (fun k => by simp)
    (by decide) (by decide) (by decide) (by decide) (by decide) (by decide)
  exact ⟨h.2.2.1, h.2.2.2⟩

/-! ### Write-list infrastructure

The copy loops of `Resize` and the fill loops of `ReadText` are
sequences of in-place buffer writes at strictly increasing offsets.
They are related to explicit write lists, over which a single
read-after-writes lemma settles the read-back claims. -/

/-- Sequential buffer writes `data[p] := v` as a fold over a write
list. -/
def setFold (d : List ℚ) (ws : List (ℕ × ℚ)) : List ℚ :=
  ws.foldl (fun d w => d.set w.1 w.2) d

theorem setFold_cons (d : List ℚ) (w : ℕ × ℚ) (ws : List (ℕ × ℚ)) :
    setFold d (w :: ws) = setFold (d.set w.1 w.2) ws := rfl

theorem setFold_append (d : List ℚ) (ws₁ ws₂ : List (ℕ × ℚ)) :
    setFold d (ws₁ ++ ws₂) = setFold (setFold d ws₁) ws₂ :=
  List.foldl_append _ _ _ _

theorem length_setFold (ws : List (ℕ × ℚ)) (d : List ℚ) :
    (setFold d ws).length = d.length := by
  induction ws generalizing d with
  | nil => rfl
  | cons w ws ih => rw [setFold_cons, ih, List.length_set]

/-- A position no write touches reads back unchanged. -/
theorem readAt_setFold_of_ne (ws : List (ℕ × ℚ)) (d : List ℚ) (p : ℕ)
    (h : ∀ w ∈ ws, w.1 ≠ p) :
    readAt (setFold d ws) p = readAt d p := by
  induction ws generalizing d with
  | nil => rfl
  | cons w ws ih =>
    rw [setFold_cons, ih _ (fun x hx => h x (List.mem_cons_of_mem _ hx))]
    unfold readAt
    rw [List.getElem?_set_ne (h w (List.mem_cons_self _ _))]

theorem readAt_set_self (d : List ℚ) (p : ℕ) (v : ℚ) (hp : p < d.length) :
    readAt (d.set p v) p = v := by
  unfold readAt
  rw [List.getElem?_set_self hp]
  rfl

/-- Read-after-writes: with strictly increasing write positions, a
written in-bounds position reads back its written value. -/
theorem readAt_setFold_mem (ws : List (ℕ × ℚ)) (d : List ℚ) (p : ℕ) (v : ℚ)
    (hmono : ws.Pairwise (fun a b => a.1 < b.1)) (hmem : (p, v) ∈ ws)
    (hp : p < d.length) :
    readAt (setFold d ws) p = v := by
  obtain ⟨l₁, l₂, rfl⟩ := List.append_of_mem hmem
  rw [setFold_append, setFold_cons]
  have hpair := (List.pairwise_append.mp hmono).2.1
  have h₂ : ∀ w ∈ l₂, w.1 ≠ p := by
    intro w hw
    have := (List.pairwise_cons.mp hpair).1 w hw
    omega
  rw [readAt_setFold_of_ne _ _ _ h₂]
  apply readAt_set_self
  rw [length_setFold]
  exact hp

/-! #### Packed row offsets -/

theorem rowStart_succ (d k : ℕ) :
    rowStart d (k + 1) = rowStart d k + (d - k) := rfl

theorem rowStart_mono (d : ℕ) {k k' : ℕ} (h : k ≤ k') :
    rowStart d k ≤ rowStart d k' := by
  induction k' with
  | zero =>
    have : k = 0 := by omega
    subst this
    exact le_rfl
  | succ n ih =>
    rcases Nat.lt_or_ge k (n + 1) with hlt | hge
    · have := ih (by omega)
      rw [rowStart_succ]
      omega
    · have : k = n + 1 := by omega
      subst this
      exact le_rfl

theorem rowStart_succ_left (d : ℕ) :
    ∀ k, k ≤ d + 1 → rowStart (d + 1) k = rowStart d k + k := by
  intro k
  induction k with
  | zero => simp [rowStart]
  | succ n ih =>
    intro h
    have hn := ih (by omega)
    rw [rowStart_succ, rowStart_succ, hn]
    omega

/-- `rowStart d d` is the packed layout size `d(d+1)/2` (doubled to
stay in `ℕ`). -/
theorem two_mul_rowStart_self : ∀ d, 2 * rowStart d d = d * (d + 1) := by
  intro d
  induction d with
  | zero => rfl
  | succ n ih =>
    have h1 : rowStart (n + 1) (n + 1) = rowStart n (n + 1) + (n + 1) :=
      rowStart_succ_left n (n + 1) le_rfl
    have h2 : rowStart n (n + 1) = rowStart n n := by
      rw [rowStart_succ]
      omega
    rw [h1, h2]
    have h3 : 2 * (rowStart n n + (n + 1)) = 2 * rowStart n n + 2 * (n + 1) := by
      ring
    rw [h3, ih]
    ring

/-- A packed offset of a stored element lies inside the `i(i+1)/2`
buffer. -/
theorem rowStart_add_lt (i k l : ℕ) (hkl : k ≤ l) (hl : l < i) :
    rowStart i k + (l - k) < i * (i + 1) / 2 := by
  have h1 : rowStart i k + (l - k) < rowStart i (k + 1) := by
    rw [rowStart_succ]
    omega
  have h2 : rowStart i (k + 1) ≤ rowStart i i := rowStart_mono i (by omega)
  have h3 := two_mul_rowStart_self i
  omega

/-! #### The triangular copy loop as a write list -/

/-- The writes performed by the `Matrix_Triangular::Resize` copy loop:
position `k*i + l`, value `xold(k*iold + l)`, for `k, l < imin` in
iteration order. -/
def triWrites (imin i iold : ℕ) (xold : List ℚ) : List (ℕ × ℚ) :=
  ((List.range imin).map (fun k =>
    (List.range imin).map (fun l =>
      (k * i + l, readAt xold (k * iold + l))))).flatten

theorem triCopyLoop_eq (imin i iold : ℕ) (xold d : List ℚ) :
    triCopyLoop imin i iold xold d = setFold d (triWrites imin i iold xold) := by
  unfold triCopyLoop triWrites setFold
  rw [List.foldl_flatten, List.foldl_map]
  congr 1
  funext dk k
  rw [List.foldl_map]

theorem triWrites_pairwise (imin i iold : ℕ) (xold : List ℚ)
    (himin : imin ≤ i) :
    (triWrites imin i iold xold).Pairwise (fun a b => a.1 < b.1) := by
  unfold triWrites
  rw [List.pairwise_flatten]
  constructor
  · intro row hrow
    rw [List.mem_map] at hrow
    obtain ⟨k, _, rfl⟩ := hrow
    rw [List.pairwise_map]
    exact (List.pairwise_lt_range imin).imp (fun h => by omega)
  · rw [List.pairwise_map]
    refine (List.pairwise_lt_range imin).imp_of_mem ?_
    intro k k' hk hk' hkk x hx y hy
    rw [List.mem_map] at hx hy
    obtain ⟨l, hl, rfl⟩ := hx
    obtain ⟨l', hl', rfl⟩ := hy
    rw [List.mem_range] at hl hl'
    have h1 : k * i + l < (k + 1) * i := by
      have : l < i := lt_of_lt_of_le hl himin
      calc k * i + l < k * i + i := by omega
      _ = (k + 1) * i := by ring
    have h2 : (k + 1) * i ≤ k' * i := Nat.mul_le_mul_right i (by omega)
    omega

theorem triWrites_target_mem (imin i iold : ℕ) (xold : List ℚ) (k l : ℕ)
    (hk : k < imin) (hl : l < imin) :
    (k * i + l, readAt xold (k * iold + l)) ∈ triWrites imin i iold xold := by
  unfold triWrites
  rw [List.mem_flatten]
  exact ⟨(List.range imin).map (fun l =>
      (k * i + l, readAt xold (k * iold + l))),
    List.mem_map_of_mem _ (List.mem_range.mpr hk),
    List.mem_map_of_mem _ (List.mem_range.mpr hl)⟩

/-! #### The row-packed copy loop as a write list -/

/-- The writes performed by the `Matrix<RowHermPacked>::Resize` copy
loop: position `rowStart i k + (l - k)`, value
`xold(rowStart iold k + (l - k))`, for `k ≤ l < imin` in iteration
order — the running counters `n` and `nold` of the source equal the
packed row offsets. -/
def hpWrites (imin i iold : ℕ) (xold : List ℚ) : List (ℕ × ℚ) :=
  ((List.range imin).map (fun k =>
    (List.range' k (imin - k)).map (fun l =>
      (rowStart i k + (l - k), readAt xold (rowStart iold k + (l - k)))))).flatten

theorem hpCopyLoop_aux (imin i iold : ℕ) (xold : List ℚ) :
    ∀ (m : ℕ) (d : List ℚ),
    ((List.range m).foldl
      (fun (acc : List ℚ × ℕ × ℕ) k =>
        ((List.range' k (imin - k)).foldl
          (fun dl l => dl.set (acc.2.1 + (l - k)) (readAt xold (acc.2.2 + (l - k))))
          acc.1,
         acc.2.1 + (i - k), acc.2.2 + (iold - k)))
      (d, 0, 0))
    = (setFold d (((List.range m).map (fun k =>
        (List.range' k (imin - k)).map (fun l =>
          (rowStart i k + (l - k), readAt xold (rowStart iold k + (l - k)))))).flatten),
       rowStart i m, rowStart iold m) := by
  intro m
  induction m with
  | zero =>
    intro d
    simp [rowStart, setFold]
  | succ n ih =>
    intro d
    rw [List.range_succ, List.foldl_append, ih, List.foldl_cons, List.foldl_nil]
    rw [List.map_append, List.flatten_append, setFold_append]
    refine Prod.ext ?_ (Prod.ext ?_ ?_)
    · simp only [List.map_cons, List.map_nil, List.flatten_cons,
                 List.flatten_nil, List.append_nil]
      unfold setFold
      rw [List.foldl_map]
    · exact (rowStart_succ i n).symm
    · exact (rowStart_succ iold n).symm

theorem hpCopyLoop_eq (imin i iold : ℕ) (xold d : List ℚ) :
    hpCopyLoop imin i iold xold d = setFold d (hpWrites imin i iold xold) := by
  unfold hpCopyLoop hpWrites
  rw [hpCopyLoop_aux]

theorem hpWrites_pairwise (imin i iold : ℕ) (xold : List ℚ)
    (himin : imin ≤ i) :
    (hpWrites imin i iold xold).Pairwise (fun a b => a.1 < b.1) := by
  unfold hpWrites
  rw [List.pairwise_flatten]
  constructor
  · intro row hrow
    rw [List.mem_map] at hrow
    obtain ⟨k, _, rfl⟩ := hrow
    rw [List.pairwise_map]
    refine (List.pairwise_lt_range' k (imin - k) 1).imp_of_mem ?_
    intro l l' hl hl' hll
    rw [List.mem_range'_1] at hl hl'
    omega
  · rw [List.pairwise_map]
    refine (List.pairwise_lt_range imin).imp_of_mem ?_
    intro k k' hk hk' hkk x hx y hy
    rw [List.mem_map] at hx hy
    obtain ⟨l, hl, rfl⟩ := hx
    obtain ⟨l', hl', rfl⟩ := hy
    rw [List.mem_range'_1] at hl hl'
    rw [List.mem_range] at hk hk'
    have h1 : rowStart i k + (l - k) < rowStart i (k + 1) := by
      rw [rowStart_succ]
      have : l < i := by omega
      omega
    have h2 : rowStart i (k + 1) ≤ rowStart i k' := rowStart_mono i (by omega)
    omega

theorem hpWrites_target_mem (imin i iold : ℕ) (xold : List ℚ) (k l : ℕ)
    (hkl : k ≤ l) (hl : l < imin) :
    (rowStart i k + (l - k), readAt xold (rowStart iold k + (l - k)))
      ∈ hpWrites imin i iold xold := by
  unfold hpWrites
  rw [List.mem_flatten]
  refine ⟨(List.range' k (imin - k)).map (fun l =>
      (rowStart i k + (l - k), readAt xold (rowStart iold k + (l - k)))),
    List.mem_map_of_mem _ (List.mem_range.mpr (by omega)),
    List.mem_map_of_mem _ ?_⟩
  rw [List.mem_range'_1]
  omega

/-! ### Claim C5 -/

/-- Claim C5: after `Resize(i, j)`, every logically stored element
`(k, l)` with both indices below `min(i, i_old)` reads back its
pre-resize value, with the index mapping re-derived for the new
dimension — the triangular loop re-derives row offsets `k*i` in the new
`i*i` buffer, and the row-packed loop re-derives the packed row offsets
(its running counters equal `rowStart`).  Stated for the row-packed
stored triangle `k ≤ l` and for the full stored square of the
triangular layout, over a non-failing allocator. -/
theorem resize_preserves_overlap (alloc : Alloc) (allocP : ℕ → Option Unit)
    (A : HPMat) (T : TriMat) (i j k l : ℕ) (datA datT : List ℚ)
    (hlen : ∀ c b, alloc c = some b → b.length = c)
    (halloc : ∀ c, alloc c ≠ none) (hallocP : ∀ c, allocP c ≠ none)
    (hA : A.data = some datA) (hAsq : A.n = A.m)
    (hAlen : datA.length = A.m * (A.m + 1) / 2)
    (hT : T.data = some datT) (hTsq : T.n = T.m) :
    (k ≤ l → l < min A.m i →
      ∃ R, A.resize alloc i j = (R, none) ∧ R.m = i ∧ R.n = i
        ∧ R.val k l = A.val k l)
  ∧ (k < min T.m i → l < min T.m i →
      ∃ R, T.resize allocP alloc i j = (R, none) ∧ R.m = i ∧ R.n = i
        ∧ R.val k l = T.val k l) := by
  constructor
  · intro hkl hlmin
    have hli : l < i := lt_of_lt_of_le hlmin (min_le_right _ _)
    have hread : ∀ base : List ℚ, base.length = i * (i + 1) / 2 →
        readAt (hpCopyLoop (min A.m i) i A.m datA base)
          (rowStart i k + (l - k))
          = readAt datA (rowStart A.m k + (l - k)) := by
      intro base hbase
      rw [hpCopyLoop_eq]
      exact readAt_setFold_mem _ _ _ _
        (hpWrites_pairwise _ _ _ _ (min_le_right A.m i))
        (hpWrites_target_mem _ _ _ _ k l hkl hlmin)
        (by rw [hbase]; exact rowStart_add_lt i k l hkl hli)
    by_cases hi : i = A.m
    · subst hi
      have hre : A.reallocate alloc A.m j = (A, none) := by
        simp [HPMat.reallocate]
      refine ⟨{ A with
          data := some (hpCopyLoop (min A.m A.m) A.m A.m datA datA) }, ?_, ?_, ?_, ?_⟩
      · simp only [HPMat.resize, hre, hA, Option.getD_some]
      · simp
      · simp [hAsq]
      · simp only [HPMat.val, hA, Option.getD_some]
        exact hread datA (by rw [hAlen])
    · obtain ⟨buf, hbuf⟩ :=
        Option.ne_none_iff_exists'.mp (halloc (i * (i + 1) / 2))
      have hbl : buf.length = i * (i + 1) / 2 := hlen _ _ hbuf
      have hre : A.reallocate alloc i j = (⟨i, i, some buf⟩, none) := by
        simp [HPMat.reallocate, hi, hbuf]
      refine ⟨⟨i, i,
          some (hpCopyLoop (min A.m i) i A.m datA buf)⟩, ?_, rfl, rfl, ?_⟩
      · simp only [HPMat.resize, hre, hA, Option.getD_some]
      · simp only [HPMat.val, hA, Option.getD_some]
        exact hread buf hbl
  · intro hkmin hlmin
    by_cases hi : i = T.m
    · refine ⟨T, ?_, hi.symm, by rw [hTsq, hi], rfl⟩
      simp [TriMat.resize, hi]
    · have hki : k < i := lt_of_lt_of_le hkmin (min_le_right _ _)
      have hli : l < i := lt_of_lt_of_le hlmin (min_le_right _ _)
      obtain ⟨u, hu⟩ := Option.ne_none_iff_exists'.mp (hallocP i)
      obtain ⟨buf, hbuf⟩ := Option.ne_none_iff_exists'.mp (halloc (i * i))
      have hbl : buf.length = i * i := hlen _ _ hbuf
      have hre : T.reallocate allocP alloc i i
          = (⟨i, i, some (triMe i), some buf⟩, none) := by
        simp [TriMat.reallocate, hi, hu, hbuf]
      refine ⟨⟨i, i, some (triMe i),
          some (triCopyLoop (min T.m i) i T.m datT buf)⟩, ?_, rfl, rfl, ?_⟩
      · simp only [TriMat.resize, hre, hT, Option.getD_some, if_neg hi]
      · show readAt (triCopyLoop (min T.m i) i T.m datT buf) (k * i + l)
            = T.val k l
        rw [triCopyLoop_eq]
        rw [readAt_setFold_mem _ _ _ _
          (triWrites_pairwise _ _ _ _ (min_le_right T.m i))
          (triWrites_target_mem _ _ _ _ k l hkmin hlmin) ?_]
        · simp [TriMat.val, hT, hTsq]
        · rw [hbl]
          calc k * i + l < k * i + i := by omega
          _ = (k + 1) * i := by ring
          _ ≤ i * i := Nat.mul_le_mul_right i (by omega)

/-- Witness for `resize_preserves_overlap`: a `2x2` packed matrix and a
`2x2` triangular matrix resized to `3x3`, element `(0, 1)`. -/
theorem resize_preserves_overlap_witness :
    (∃ R, HPMat.resize (fun c => some (List.replicate c 0))
        ⟨2, 2, some [5, 6, 7]⟩ 3 3 = (R, none)
      ∧ R.m = 3 ∧ R.n = 3 ∧ R.val 0 1 = HPMat.val ⟨2, 2, some [5, 6, 7]⟩ 0 1)
  ∧ (∃ R, TriMat.resize (fun _ => some ()) (fun c => some (List.replicate c 0))
        ⟨2, 2, some [0, 2], some [1, 2, 3, 4]⟩ 3 3 = (R, none)
      ∧ R.m = 3 ∧ R.n = 3
      ∧ R.val 0 1 = TriMat.val ⟨2, 2, some [0, 2], some [1, 2, 3, 4]⟩ 0 1) := by
  have h := resize_preserves_overlap (fun c => some (List.replicate c 0))
    (fun _ => some ()) ⟨2, 2, some [5, 6, 7]⟩
    ⟨2, 2, some [0, 2], some [1, 2, 3, 4]⟩ 3 3 0 1 [5, 6, 7] [1, 2, 3, 4]
    (fun c b hb => by injection hb with hb'; rw [← hb']; simp)
    (fun c => by simp) (fun c => by simp)
    (by decide) (by decide) (by decide) (by decide) (by decide)
  exact ⟨h.1 (by decide) (by decide), h.2 (by decide) (by decide)⟩

/-! ### Claim C7 — infrastructure -/

/-- Indexing into a flattening of uniform-length rows. -/
theorem readAt_flatten_uniform (n : ℕ) :
    ∀ (rows : List (List ℚ)) (a b : ℕ), (∀ r ∈ rows, r.length = n) →
    a < rows.length → b < n →
    readAt rows.flatten (a * n + b) = readAt (rows.getD a []) b := by
  intro rows
  induction rows with
  | nil =>
    intro a b _ ha
    simp at ha
  | cons r rows ih =>
    intro a b hn ha hb
    have hr : r.length = n := hn r (List.mem_cons_self _ _)
    cases a with
    | zero =>
      simp only [List.flatten_cons, List.getD_cons_zero, Nat.zero_mul,
                 Nat.zero_add]
      unfold readAt
      rw [List.getElem?_append, if_pos (by omega)]
    | succ a' =>
      simp only [List.flatten_cons, List.getD_cons_succ]
      unfold readAt
      rw [List.getElem?_append, if_neg (by
        rw [hr]
        have : (a' + 1) * n = a' * n + n := by ring
        omega)]
      have hidx : (a' + 1) * n + b - r.length = a' * n + b := by
        rw [hr]
        have : (a' + 1) * n = a' * n + n := by ring
        omega
      rw [hidx]
      have := ih a' b (fun r h => hn r (List.mem_cons_of_mem _ h))
        (by simpa using ha) hb
      unfold readAt at this
      exact this

/-- `getD` of a map over `range`. -/
theorem map_range_getD (f : ℕ → List ℚ) (m a : ℕ) (ha : a < m) :
    ((List.range m).map f).getD a [] = f a := by
  rw [List.getD_eq_getElem?_getD, List.getElem?_map, List.getElem?_range ha]
  rfl

/-- `readAt` of a map over `range`. -/
theorem readAt_map_range (g : ℕ → ℚ) (n b : ℕ) (hb : b < n) :
    readAt ((List.range n).map g) b = g b := by
  unfold readAt
  rw [List.getElem?_map, List.getElem?_range hb]
  rfl

/-- The writes performed by the upper-storage `ReadText` fill loop for
rows `1..m-1`: position `i*n + j`, value `other((i-1)*n + j)` (written
with the running-counter arithmetic), for `i ≤ j < n`. -/
def upFillWrites (m n : ℕ) (other : List ℚ) : List (ℕ × ℚ) :=
  ((List.range' 1 (m - 1)).map (fun i =>
    (List.range' i (n - i)).map (fun j =>
      (i * n + j, readAt other ((i - 1) * n + i + (j - i)))))).flatten

/-- The writes performed by the lower-storage `ReadText` fill loop for
rows `1..m-1`: position `i*n + j`, value `other((i-1)*n + j)`, for
`j ≤ i`. -/
def loFillWrites (m n : ℕ) (other : List ℚ) : List (ℕ × ℚ) :=
  ((List.range' 1 (m - 1)).map (fun i =>
    (List.range (i + 1)).map (fun j =>
      (i * n + j, readAt other ((i - 1) * n + j))))).flatten

theorem triReadFillUp_aux (n : ℕ) (other : List ℚ) :
    ∀ (c : ℕ), c ≤ n → ∀ (d : List ℚ),
    ((List.range' 1 c).foldl
      (fun (acc : List ℚ × ℕ) i =>
        ((List.range' i (n - i)).foldl
          (fun dl j => dl.set (i * n + j) (readAt other (acc.2 + i + (j - i))))
          acc.1,
         acc.2 + i + (n - i)))
      (d, 0))
    = (setFold d (((List.range' 1 c).map (fun i =>
        (List.range' i (n - i)).map (fun j =>
          (i * n + j, readAt other ((i - 1) * n + i + (j - i)))))).flatten),
       c * n) := by
  intro c
  induction c with
  | zero =>
    intro _ d
    simp [setFold]
  | succ cc ih =>
    intro hc d
    rw [List.range'_1_concat, List.foldl_append, ih (by omega),
        List.foldl_cons, List.foldl_nil]
    rw [List.map_append, List.flatten_append, setFold_append]
    refine Prod.ext ?_ ?_
    · simp only [List.map_cons, List.map_nil, List.flatten_cons,
                 List.flatten_nil, List.append_nil]
      unfold setFold
      rw [List.foldl_map]
      have hcc : 1 + cc - 1 = cc := by omega
      rw [hcc]
    · simp only []
      have hmul : (cc + 1) * n = cc * n + n := by ring
      omega

theorem triReadFillUp_eq (m n : ℕ) (other d : List ℚ) (hm : m - 1 ≤ n) :
    triReadFillUp m n other d = setFold d (upFillWrites m n other) := by
  unfold triReadFillUp upFillWrites
  rw [triReadFillUp_aux n other (m - 1) hm d]

theorem triReadFillLo_aux (n : ℕ) (other : List ℚ) :
    ∀ (c : ℕ), c < n → ∀ (d : List ℚ),
    ((List.range' 1 c).foldl
      (fun (acc : List ℚ × ℕ) i =>
        ((List.range (i + 1)).foldl
          (fun dl j => dl.set (i * n + j) (readAt other (acc.2 + j)))
          acc.1,
         acc.2 + (i + 1) + (n - (i + 1))))
      (d, 0))
    = (setFold d (((List.range' 1 c).map (fun i =>
        (List.range (i + 1)).map (fun j =>
          (i * n + j, readAt other ((i - 1) * n + j))))).flatten),
       c * n) := by
  intro c
  induction c with
  | zero =>
    intro _ d
    simp [setFold]
  | succ cc ih =>
    intro hc d
    rw [List.range'_1_concat, List.foldl_append, ih (by omega),
        List.foldl_cons, List.foldl_nil]
    rw [List.map_append, List.flatten_append, setFold_append]
    refine Prod.ext ?_ ?_
    · simp only [List.map_cons, List.map_nil, List.flatten_cons,
                 List.flatten_nil, List.append_nil]
      unfold setFold
      rw [List.foldl_map]
      have hcc : 1 + cc - 1 = cc := by omega
      rw [hcc]
    · simp only []
      have hmul : (cc + 1) * n = cc * n + n := by ring
      omega

theorem triReadFillLo_eq (m n : ℕ) (other d : List ℚ) (hm : m - 1 < n) :
    triReadFillLo m n other d = setFold d (loFillWrites m n other) := by
  unfold triReadFillLo loFillWrites
  rw [triReadFillLo_aux n other (m - 1) hm d]

/-- The complete upper-storage `ReadText` write sequence (row 0 then
the fill loop) has strictly increasing positions. -/
theorem upWrites_pairwise (m n : ℕ) (first other : List ℚ) :
    ((List.range n).map (fun j => ((0 * n + j : ℕ), readAt first j))
      ++ upFillWrites m n other).Pairwise (fun a b => a.1 < b.1) := by
  rw [List.pairwise_append]
  refine ⟨?_, ?_, ?_⟩
  · rw [List.pairwise_map]
    exact (List.pairwise_lt_range n).imp (fun h => by omega)
  · unfold upFillWrites
    rw [List.pairwise_flatten]
    constructor
    · intro row hrow
      rw [List.mem_map] at hrow
      obtain ⟨i, _, rfl⟩ := hrow
      rw [List.pairwise_map]
      exact (List.pairwise_lt_range' i (n - i) 1).imp (fun h => by omega)
    · rw [List.pairwise_map]
      refine (List.pairwise_lt_range' 1 (m - 1) 1).imp_of_mem ?_
      intro i i' hi hi' hii x hx y hy
      rw [List.mem_map] at hx hy
      obtain ⟨j, hj, rfl⟩ := hx
      obtain ⟨j', hj', rfl⟩ := hy
      rw [List.mem_range'_1] at hj hj' hi hi'
      have hmul : (i + 1) * n = i * n + n := by ring
      have h2 : (i + 1) * n ≤ i' * n := Nat.mul_le_mul_right n (by omega)
      omega
  · intro x hx y hy
    rw [List.mem_map] at hx
    obtain ⟨j, hj, rfl⟩ := hx
    rw [List.mem_range] at hj
    unfold upFillWrites at hy
    rw [List.mem_flatten] at hy
    obtain ⟨row, hrow, hyx⟩ := hy
    rw [List.mem_map] at hrow
    obtain ⟨i, hi, rfl⟩ := hrow
    rw [List.mem_map] at hyx
    obtain ⟨j', _, rfl⟩ := hyx
    rw [List.mem_range'_1] at hi
    have : n ≤ i * n := by
      calc n = 1 * n := (one_mul n).symm
      _ ≤ i * n := Nat.mul_le_mul_right n (by omega)
    omega

/-- The complete lower-storage `ReadText` write sequence (the single
`(0,0)` write then the fill loop) has strictly increasing positions. -/
theorem loWrites_pairwise (m n : ℕ) (first other : List ℚ) (hmn : m ≤ n)
    (hn0 : 0 < n) :
    (((0 * n + 0 : ℕ), readAt first 0)
      :: loFillWrites m n other).Pairwise (fun a b => a.1 < b.1) := by
  rw [List.pairwise_cons]
  constructor
  · intro x hx
    unfold loFillWrites at hx
    rw [List.mem_flatten] at hx
    obtain ⟨row, hrow, hxx⟩ := hx
    rw [List.mem_map] at hrow
    obtain ⟨i, hi, rfl⟩ := hrow
    rw [List.mem_map] at hxx
    obtain ⟨j, _, rfl⟩ := hxx
    rw [List.mem_range'_1] at hi
    have : n ≤ i * n := by
      calc n = 1 * n := (one_mul n).symm
      _ ≤ i * n := Nat.mul_le_mul_right n (by omega)
    omega
  · unfold loFillWrites
    rw [List.pairwise_flatten]
    constructor
    · intro row hrow
      rw [List.mem_map] at hrow
      obtain ⟨i, _, rfl⟩ := hrow
      rw [List.pairwise_map]
      exact (List.pairwise_lt_range (i + 1)).imp (fun h => by omega)
    · rw [List.pairwise_map]
      refine (List.pairwise_lt_range' 1 (m - 1) 1).imp_of_mem ?_
      intro i i' hi hi' hii x hx y hy
      rw [List.mem_map] at hx hy
      obtain ⟨j, hj, rfl⟩ := hx
      obtain ⟨j', hj', rfl⟩ := hy
      rw [List.mem_range] at hj hj'
      rw [List.mem_range'_1] at hi hi'
      have hmul : (i + 1) * n = i * n + n := by ring
      have h2 : (i + 1) * n ≤ i' * n := Nat.mul_le_mul_right n (by omega)
      have hjn : j < n := lt_of_lt_of_le (by omega : j < m) hmn
      omega

/-- `Clear` always produces the empty matrix. -/
theorem clear_fst (Z : TriMat) : (Z.clear).1 = TriMat.empty := by
  unfold TriMat.clear
  cases Z.data <;> rfl

/-- Reading an entry of the printed grid below the first row. -/
theorem grid_rest_read (T : TriMat) (up : Bool) (m' : ℕ) (hm' : T.m = m' + 1)
    (k l : ℕ) (hk1 : 1 ≤ k) (hk : k < T.m) (hl : l < T.n) :
    readAt ((List.range m').map (fun a =>
      (List.range T.n).map (fun j => T.access up (a + 1) j))).flatten
      ((k - 1) * T.n + l)
    = T.access up k l := by
  rw [readAt_flatten_uniform T.n _ (k - 1) l
    (by intro r hr
        rw [List.mem_map] at hr
        obtain ⟨a, _, rfl⟩ := hr
        simp)
    (by simp only [List.length_map, List.length_range]; omega) hl]
  rw [map_range_getD _ m' (k - 1) (by omega)]
  rw [readAt_map_range _ _ l hl]
  have hkk : k - 1 + 1 = k := by omega
  rw [hkk]

/-! ### Claim C7 -/

/-- Claim C7: `WriteText` prints the full square grid, one
tab-separated row per line, and `ReadText` on that grid restores every
stored-triangle element exactly — for upper storage it skips the `i`
leading entries of row `i` and populates columns `j ≥ i`, for lower
storage it reads the `i+1` leading entries and skips the rest — so a
`WriteText`/`ReadText` round trip preserves all mathematically present
entries, for both storages, for every square triangular matrix.
(`Z` is the arbitrary matrix `ReadText` is invoked on; it is cleared
first.) -/
theorem writetext_readtext_roundtrip
    (alloc : Alloc) (allocP : ℕ → Option Unit) (T Z : TriMat) (up : Bool)
    (k l : ℕ)
    (hlen : ∀ c b, alloc c = some b → b.length = c)
    (halloc : ∀ c, alloc c ≠ none) (hallocP : ∀ c, allocP c ≠ none)
    (hTsq : T.n = T.m) :
    ∃ R, TriMat.readText up allocP alloc Z (T.writeText up) = some R
      ∧ R.m = T.m ∧ R.n = T.m
      ∧ (k < T.m → l < T.m → (if up then k ≤ l else l ≤ k) →
          R.val k l = T.val k l) := by
  by_cases hm0 : T.m = 0
  · refine ⟨TriMat.empty, ?_, by simp [TriMat.empty, hm0],
      by simp [TriMat.empty, hm0], ?_⟩
    · have hw : T.writeText up = [] := by simp [TriMat.writeText, hm0]
      rw [hw]
      simp [TriMat.readText, clear_fst]
    · intro hk
      omega
  · obtain ⟨m', hm'⟩ : ∃ m', T.m = m' + 1 := ⟨T.m - 1, by omega⟩
    have hTn : T.n = m' + 1 := by rw [hTsq, hm']
    have hgrid : T.writeText up
        = ((List.range T.n).map (fun j => T.access up 0 j))
          :: (List.range m').map (fun a =>
              (List.range T.n).map (fun j => T.access up (a + 1) j)) := by
      unfold TriMat.writeText
      rw [hm', List.range_succ_eq_map]
      simp [List.map_map, Function.comp]
    have hfl : ((List.range T.n).map (fun j => T.access up 0 j)).length
        = T.n := by simp
    have hrest : ∀ r ∈ (List.range m').map (fun a =>
        (List.range T.n).map (fun j => T.access up (a + 1) j)),
        r.length = T.n := by
      intro r hr
      rw [List.mem_map] at hr
      obtain ⟨a, _, rfl⟩ := hr
      simp
    have hother : ((List.range m').map (fun a =>
        (List.range T.n).map (fun j => T.access up (a + 1) j))).flatten.length
        = m' * T.n := by
      rw [List.length_flatten, List.map_map]
      have hcomp : (List.length ∘ fun a =>
          (List.range T.n).map (fun j => T.access up (a + 1) j))
          = fun _ => T.n := by
        funext a
        simp
      rw [hcomp, List.map_const', List.length_range, List.sum_replicate,
          smul_eq_mul]
    obtain ⟨u, hu⟩ := Option.ne_none_iff_exists'.mp (hallocP (m' + 1))
    obtain ⟨buf, hbuf⟩ :=
      Option.ne_none_iff_exists'.mp (halloc ((m' + 1) * (m' + 1)))
    have hbl : buf.length = (m' + 1) * (m' + 1) := hlen _ _ hbuf
    have hre : TriMat.reallocate allocP alloc TriMat.empty (m' + 1) T.n
        = (⟨m' + 1, m' + 1, some (triMe (m' + 1)), some buf⟩, none) := by
      simp [TriMat.reallocate, TriMat.empty, hu, hbuf]
    have hn0 : 0 < T.n := by omega
    rw [hgrid]
    simp only [TriMat.readText, clear_fst]
    rw [hfl, hother, Nat.mul_div_cancel _ hn0, Nat.add_comm 1 m',
        Nat.add_sub_cancel]
    rw [if_neg (by simp)]
    rw [hre]
    simp only [Option.getD_some]
    refine ⟨_, rfl, by simp [hm'], by simp [hm'], ?_⟩
    intro hk hl hst
    have hlTn : l < T.n := by omega
    have hkTn : k < T.n := by omega
    have haccess : T.access up k l = T.val k l := by
      cases up with
      | true =>
        have : k ≤ l := by simpa using hst
        simp [TriMat.access, this]
      | false =>
        have : l ≤ k := by simpa using hst
        simp [TriMat.access, this]
    have hbound : k * (m' + 1) + l < buf.length := by
      rw [hbl]
      have h1 : k * (m' + 1) + l < (k + 1) * (m' + 1) := by
        have : (k + 1) * (m' + 1) = k * (m' + 1) + (m' + 1) := by ring
        omega
      have h2 : (k + 1) * (m' + 1) ≤ (m' + 1) * (m' + 1) :=
        Nat.mul_le_mul_right (m' + 1) (by omega)
      omega
    have hval : TriMat.val
        { m := m' + 1, n := m' + 1, me := some (triMe (m' + 1)),
          data := some (if up = true then
            triReadFillUp (m' + 1) T.n
              ((List.range m').map (fun a =>
                (List.range T.n).map (fun j => T.access up (a + 1) j))).flatten
              (if up = true then
                (List.range T.n).foldl
                  (fun dl j => dl.set (0 * T.n + j)
                    (readAt ((List.range T.n).map (fun j => T.access up 0 j)) j))
                  buf
              else
                buf.set (0 * T.n + 0)
                  (readAt ((List.range T.n).map (fun j => T.access up 0 j)) 0))
          else
            triReadFillLo (m' + 1) T.n
              ((List.range m').map (fun a =>
                (List.range T.n).map (fun j => T.access up (a + 1) j))).flatten
              (if up = true then
                (List.range T.n).foldl
                  (fun dl j => dl.set (0 * T.n + j)
                    (readAt ((List.range T.n).map (fun j => T.access up 0 j)) j))
                  buf
              else
                buf.set (0 * T.n + 0)
                  (readAt ((List.range T.n).map (fun j => T.access up 0 j)) 0))) }
        k l = T.access up k l := by
      unfold TriMat.val
      simp only [Option.getD_some]
      have hpos : k * (m' + 1) + l = k * T.n + l := by rw [hTn]
      rw [hpos]
      cases up with
      | true =>
        simp only [eq_self_iff_true, if_true]
        rw [triReadFillUp_eq _ _ _ _ (by omega)]
        have hd1 : (List.range T.n).foldl
            (fun dl j => dl.set (0 * T.n + j)
              (readAt ((List.range T.n).map
                (fun j => T.access true 0 j)) j)) buf
            = setFold buf ((List.range T.n).map (fun j =>
                ((0 * T.n + j : ℕ),
                 readAt ((List.range T.n).map
                   (fun j => T.access true 0 j)) j))) := by
          unfold setFold
          rw [List.foldl_map]
        rw [hd1, ← setFold_append]
        by_cases hk0 : k = 0
        · subst hk0
          rw [readAt_setFold_mem _ _ _
            (readAt ((List.range T.n).map (fun j => T.access true 0 j)) l)
            (upWrites_pairwise (m' + 1) T.n _ _) ?_ (by simpa using hbound)]
          · rw [readAt_map_range _ _ l hlTn]
          · apply List.mem_append_left
            have := List.mem_map_of_mem (fun j =>
              ((0 * T.n + j : ℕ),
               readAt ((List.range T.n).map
                 (fun j => T.access true 0 j)) j))
              (List.mem_range.mpr hlTn)
            simpa using this
        · rw [readAt_setFold_mem _ _ _
            (readAt ((List.range m').map (fun a =>
              (List.range T.n).map (fun j => T.access true (a + 1) j))).flatten
              ((k - 1) * T.n + k + (l - k))) (upWrites_pairwise (m' + 1) T.n _ _)
            ?_ (by rw [← hpos]; exact hbound)]
          · have hidx : (k - 1) * T.n + k + (l - k) = (k - 1) * T.n + l := by
              have : k ≤ l := by simpa using hst
              omega
            rw [hidx]
            exact grid_rest_read T true m' hm' k l (by omega) hk hlTn
          · apply List.mem_append_right
            unfold upFillWrites
            rw [List.mem_flatten]
            refine ⟨(List.range' k (T.n - k)).map (fun j =>
              ((k * T.n + j : ℕ),
               readAt ((List.range m').map (fun a =>
                 (List.range T.n).map
                   (fun j => T.access true (a + 1) j))).flatten
                 ((k - 1) * T.n + k + (j - k)))), ?_, ?_⟩
            · apply List.mem_map_of_mem
              rw [List.mem_range'_1]
              omega
            · have hkl : k ≤ l := by simpa using hst
              have := List.mem_map_of_mem (fun j =>
                ((k * T.n + j : ℕ),
                 readAt ((List.range m').map (fun a =>
                   (List.range T.n).map
                     (fun j => T.access true (a + 1) j))).flatten
                   ((k - 1) * T.n + k + (j - k))))
                (show l ∈ List.range' k (T.n - k) by
                  rw [List.mem_range'_1]
                  omega)
              simpa using this
      | false =>
        simp only [Bool.false_eq_true, if_false]
        rw [triReadFillLo_eq _ _ _ _ (by omega)]
        have hd1 : buf.set (0 * T.n + 0)
            (readAt ((List.range T.n).map (fun j => T.access false 0 j)) 0)
            = setFold buf [((0 * T.n + 0 : ℕ),
                readAt ((List.range T.n).map
                  (fun j => T.access false 0 j)) 0)] := rfl
        rw [hd1, ← setFold_append]
        have hlk : l ≤ k := by simpa using hst
        by_cases hk0 : k = 0
        · subst hk0
          have hl0 : l = 0 := by omega
          subst hl0
          rw [readAt_setFold_mem _ _ _
            (readAt ((List.range T.n).map (fun j => T.access false 0 j)) 0)
            (by
              have := loWrites_pairwise (m' + 1) T.n
                ((List.range T.n).map (fun j => T.access false 0 j))
                ((List.range m').map (fun a =>
                  (List.range T.n).map
                    (fun j => T.access false (a + 1) j))).flatten
                (by omega) hn0
              simpa using this)
            (by simp) (by simpa using hbound)]
          rw [readAt_map_range _ _ 0 hn0]
        · rw [readAt_setFold_mem _ _ _
            (readAt ((List.range m').map (fun a =>
              (List.range T.n).map
                (fun j => T.access false (a + 1) j))).flatten
              ((k - 1) * T.n + l))
            (by
              have := loWrites_pairwise (m' + 1) T.n
                ((List.range T.n).map (fun j => T.access false 0 j))
                ((List.range m').map (fun a =>
                  (List.range T.n).map
                    (fun j => T.access false (a + 1) j))).flatten
                (by omega) hn0
              simpa using this)
            ?_ (by rw [← hpos]; exact hbound)]
          · exact grid_rest_read T false m' hm' k l (by omega) hk hlTn
          · apply List.mem_append_right
            unfold loFillWrites
            rw [List.mem_flatten]
            refine ⟨(List.range (k + 1)).map (fun j =>
              ((k * T.n + j : ℕ),
               readAt ((List.range m').map (fun a =>
                 (List.range T.n).map
                   (fun j => T.access false (a + 1) j))).flatten
                 ((k - 1) * T.n + j))), ?_, ?_⟩
            · apply List.mem_map_of_mem
              rw [List.mem_range'_1]
              omega
            · exact List.mem_map_of_mem _ (List.mem_range.mpr (by omega))
    rw [hval, haccess]

/-- Witness for `writetext_readtext_roundtrip`: a concrete `2x2`
upper-triangular matrix printed and re-read into an empty matrix, with
stored element `(0, 1)` recovered. -/
theorem writetext_readtext_roundtrip_witness :
    ∃ R, TriMat.readText true (fun _ => some ())
        (fun c => some (List.replicate c 0)) TriMat.empty
        (TriMat.writeText true ⟨2, 2, some [0, 2], some [1, 2, 3, 4]⟩)
        = some R
      ∧ R.m = 2 ∧ R.n = 2
      ∧ (0 < 2 → 1 < 2 → (if true then 0 ≤ 1 else 1 ≤ 0) →
          R.val 0 1 = TriMat.val ⟨2, 2, some [0, 2], some [1, 2, 3, 4]⟩ 0 1) :=
  writetext_readtext_roundtrip (fun c => some (List.replicate c 0))
    (fun _ => some ()) ⟨2, 2, some [0, 2], some [1, 2, 3, 4]⟩
    TriMat.empty true 0 1
    (fun c b hb => by injection hb with hb'; rw [← hb']; simp)
    (fun c => by simp) (fun c => by simp) (by decide)

end Verdandi
